import Mathlib

/-!
Verification of the codebase-analysis and knowledge-graph pipeline of the
OnboardingxGrok repository (`services/codebase_analyzer.py` and
`services/tutorial_generator.py`), against its natural-language specification.

The Python sources are shallowly embedded:
* Python strings are Lean `String`s; character-level operations work on `String.data`.
* Python dicts that the code builds by keyed insertion are association lists with
  Python's insertion semantics (`dictInsert`): overwriting an existing key keeps
  its position, a new key is appended.
* CPython's `ast` module is external to the repository; its output is embedded as
  the `PyStmt`/`PyExpr` syntax-tree type, and `ast.parse` failure (SyntaxError) as
  an `Option` (`SrcText.pyAst`).  `ast.walk` is documented to yield all descendant
  nodes "in no specified order"; it is embedded as a depth-first enumeration
  (`walkStmts`), which is a valid refinement of that contract, and none of the
  verified properties depend on the enumeration order.
* Python's `re` module is external; the regular-expression dialect actually emitted
  by `_glob_to_regex` (escaped literals, `.`, `.*`, `[^/]*`, leading `^`) is embedded
  by `reParse`/`rmatch`, with `re.match`'s semantics (anchored at the start of the
  string, not at the end; `.` does not match a newline).
* Filesystem traversal is embedded by quantifying over the list of directory
  entries (`FsEntry`: relative path, regular-file flag, stat success, size,
  readability, content) that `Path.rglob` would enumerate.  `sorted()` on `Path`
  objects compares the tuple of path components (`PurePath.__lt__` via
  `_cparts`); below a common root this reduces to the lexicographic order on
  the relative paths' slash-separated component sequences (`pathLe`), which on
  nested trees differs from code-point order on the raw path string
  (`a/b.py` precedes `a.py`).
-/

namespace OXG

/-! ## Character-list utilities -/

/-- Code-point comparison of character lists: the ordering Python uses for
`sorted()` on `str`.  `_collect_files` sorts `Path` objects, which order
differently (see `pathLe`); this comparator expresses the raw-string reading of
"sorted lexicographically by relative path". -/
def lexLe : List Char → List Char → Bool
  | [], _ => true
  | _ :: _, [] => false
  | a :: as, b :: bs =>
    if a.toNat < b.toNat then true
    else if b.toNat < a.toNat then false
    else lexLe as bs

/-- Strict code-point comparison of character lists: Python `str` `<`. -/
def strLt : List Char → List Char → Bool
  | [], [] => false
  | [], _ :: _ => true
  | _ :: _, [] => false
  | a :: as, b :: bs =>
    if a.toNat < b.toNat then true
    else if b.toNat < a.toNat then false
    else strLt as bs

/-- Split a path's characters at each `/` into its components (the paths
`Path.rglob` yields have no duplicate, leading or trailing separators, so this
is exactly `PurePath.parts` relative to the root). -/
def splitSlashAux (acc : List Char) : List Char → List (List Char)
  | [] => [acc.reverse]
  | c :: rest => if c = '/' then acc.reverse :: splitSlashAux [] rest else splitSlashAux (c :: acc) rest

/-- The component sequence of a relative path. -/
def splitSlash (l : List Char) : List (List Char) := splitSlashAux [] l

/-- Rejoin components with `/` (inverse of `splitSlash`). -/
def joinSlash : List (List Char) → List Char
  | [] => []
  | [x] => x
  | x :: y :: rest => x ++ '/' :: joinSlash (y :: rest)

/-- Python tuple `<=` on component sequences: the first components that are
not equal decide via `<`; a proper prefix is smaller. -/
def partsLe : List (List Char) → List (List Char) → Bool
  | [], _ => true
  | _ :: _, [] => false
  | x :: xs, y :: ys =>
    if strLt x y then true
    else if strLt y x then false
    else partsLe xs ys

/-- Boolean prefix test on character lists. -/
def isPrefixL : List Char → List Char → Bool
  | [], _ => true
  | _ :: _, [] => false
  | c :: cs, d :: ds => c = d && isPrefixL cs ds

/-- Boolean substring test (Python's `in` on `str`). -/
def isSubstrL (pat : List Char) : List Char → Bool
  | [] => isPrefixL pat []
  | c :: rest => isPrefixL pat (c :: rest) || isSubstrL pat rest

/-- `String` wrapper for `isSubstrL`: Python `pat in s`. -/
def strContains (s pat : String) : Bool := isSubstrL pat.data s.data

/-- Boolean suffix test: Python `s.endswith(suffix)`. -/
def endsWithS (s suffix : String) : Bool := isPrefixL suffix.data.reverse s.data.reverse

/-- One scan step of Python's `str.replace(pat, rep)` specialised to a nonempty
pattern `p0 :: prest`: left-to-right, non-overlapping replacement. -/
def replAux (p0 : Char) (prest rep : List Char) (l : List Char) : List Char :=
  match l with
  | [] => []
  | c :: rest =>
    if p0 = c && isPrefixL prest rest then rep ++ replAux p0 prest rep (rest.drop prest.length)
    else c :: replAux p0 prest rep rest
termination_by l.length
decreasing_by
  all_goals simp [List.length_drop]
  omega

/-- Python's `str.replace(pat, rep)` on character lists (an empty pattern never
occurs in the analyzer; it is mapped to the identity). -/
def replaceAll (pat rep l : List Char) : List Char :=
  match pat with
  | [] => l
  | p0 :: prest => replAux p0 prest rep l

/-- First dot-separated segment: Python `s.split(".")[0]`. -/
def firstSegDot (s : String) : String := ⟨s.data.takeWhile (fun c => !(c = '.'))⟩

/-- First slash-separated segment: Python `s.split("/")[0]`. -/
def firstSegSlash (s : String) : String := ⟨s.data.takeWhile (fun c => !(c = '/'))⟩

/-- Last slash-separated segment: Python `s.split("/")[-1]`. -/
def lastSegSlash (s : String) : String :=
  ⟨(s.data.reverse.takeWhile (fun c => !(c = '/'))).reverse⟩

/-- Python `s.startswith(".")`. -/
def startsWithDot (s : String) : Bool :=
  match s.data with
  | [] => false
  | c :: _ => c = '.'

/-- Split a character list at the first occurrence of `"::"`.  Embeds the
`file_path, name = key.split("::")` unpacking in `build_knowledge_graph`
(the Python code assumes the separator occurs exactly once). -/
def splitCCL (l : List Char) : List Char × List Char :=
  match l with
  | [] => ([], [])
  | c :: rest =>
    match rest with
    | [] => ([c], [])
    | d :: rest' =>
      if c = ':' && d = ':' then ([], rest')
      else
        let p := splitCCL rest
        (c :: p.1, p.2)

/-- String version of `splitCCL`. -/
def splitCC (s : String) : String × String :=
  let q := splitCCL s.data
  (⟨q.1⟩, ⟨q.2⟩)

/-! ## The Pattern Matcher: `_glob_to_regex` and the `re` dialect it emits

`_glob_to_regex` escapes the glob with `re.escape`, substitutes the escaped
wildcards (`\*\*` to `.*`, then `\*` to `[^/]*`, then `\?` to `.`), anchors with
a leading `^` and compiles.  `re.escape` (CPython >= 3.7) prefixes a backslash
to exactly the characters in `b'()[]{}?*+-|^$\.&~# \t\n\r\v\f'`. -/

/-- The characters `re.escape` escapes (CPython's `_special_chars_map`). -/
def reSpecials : List Char := "()[]\x7b\x7d?*+-|^$\\.&~# \t\n\r\x0b\x0c".data

/-- `re.escape` on a single character. -/
def escapeChar (c : Char) : List Char :=
  if reSpecials.contains c then ['\\', c] else [c]

/-- `re.escape` on a character list. -/
def reEscape : List Char → List Char
  | [] => []
  | c :: rest => escapeChar c ++ reEscape rest

/-- The regex source text `_glob_to_regex` builds from a glob pattern:
`"^" + re.escape(p).replace(r"\*\*", ".*").replace(r"\*", "[^/]*").replace(r"\?", ".")`. -/
def globToRegex (p : String) : List Char :=
  '^' :: replaceAll ['\\', '?'] ['.']
    (replaceAll ['\\', '*'] ['[', '^', '/', ']', '*']
      (replaceAll ['\\', '*', '\\', '*'] ['.', '*'] (reEscape p.data)))

/-- An atom of the regex dialect emitted by `globToRegex`: a literal character,
the metacharacter `.`, or a character class. -/
inductive RAtom where
  | lit (c : Char)
  | dot
  | cls (neg : Bool) (mems : List Char)
deriving DecidableEq

/-- A compiled regex token: an atom, a starred atom, or the `^` anchor. -/
inductive RTok where
  | atom (a : RAtom)
  | star (a : RAtom)
  | anchor
deriving DecidableEq

/-! Parser for the regex dialect `globToRegex` emits, written as a state machine
over the remaining text.  `none` models an `re.error` (trailing backslash,
unterminated class, or a quantifier with nothing to repeat).  Constructs outside
the emitted dialect that CPython would treat specially are parsed as literals;
they never occur in emitted patterns.  A `[` enters `clsStart`, which handles
the optional `^` negation and CPython's rule that a `]` in first member
position is a literal member; `clsMems` collects members up to the closing
bracket and resumes the main parse. -/

mutual

def reParseAux (l : List Char) (acc : List RTok) : Option (List RTok) :=
  match l with
  | [] => some acc.reverse
  | c :: rest =>
    if c = '\\' then
      match rest with
      | [] => none
      | d :: rest' => reParseAux rest' (RTok.atom (RAtom.lit d) :: acc)
    else if c = '^' then reParseAux rest (RTok.anchor :: acc)
    else if c = '.' then reParseAux rest (RTok.atom RAtom.dot :: acc)
    else if c = '[' then clsStart rest acc
    else if c = '*' then
      match acc with
      | RTok.atom a :: acc' => reParseAux rest (RTok.star a :: acc')
      | _ => none
    else reParseAux rest (RTok.atom (RAtom.lit c) :: acc)
termination_by l.length
decreasing_by all_goals simp <;> omega

def clsStart (l : List Char) (acc : List RTok) : Option (List RTok) :=
  match l with
  | [] => none
  | c :: t =>
    if c = '^' then
      match t with
      | [] => none
      | d :: t' => clsMems [d] true t' acc
    else clsMems [c] false t acc
termination_by l.length
decreasing_by all_goals simp <;> omega

def clsMems (mem : List Char) (neg : Bool) (l : List Char) (acc : List RTok) :
    Option (List RTok) :=
  match l with
  | [] => none
  | c :: t =>
    if c = ']' then reParseAux t (RTok.atom (RAtom.cls neg mem.reverse) :: acc)
    else clsMems (c :: mem) neg t acc
termination_by l.length
decreasing_by all_goals simp <;> omega

end

/-- `re.compile` on the emitted dialect. -/
def reParse (l : List Char) : Option (List RTok) := reParseAux l []

/-- Does a single atom match a character (`.` does not match a newline,
a negated class matches characters outside its members). -/
def atomMatch (a : RAtom) (d : Char) : Bool :=
  match a with
  | RAtom.lit c => c = d
  | RAtom.dot => d ≠ '\n'
  | RAtom.cls neg mems => if neg then !(mems.contains d) else mems.contains d

/-- `re.match` semantics for a compiled token list: the match is anchored at the
start of the string but may end before its end.  The leading `^` anchor is
redundant under these semantics and consumes nothing. -/
def rmatch (ts : List RTok) (s : List Char) : Bool :=
  match ts, s with
  | [], _ => true
  | RTok.anchor :: ts', s => rmatch ts' s
  | RTok.atom _ :: _, [] => false
  | RTok.atom a :: ts', d :: s' => atomMatch a d && rmatch ts' s'
  | RTok.star a :: ts', s =>
    rmatch ts' s ||
      (match s with
        | [] => false
        | d :: s' => atomMatch a d && rmatch (RTok.star a :: ts') s')
termination_by (s.length, ts.length)
decreasing_by
  all_goals simp [Prod.lex_iff]
  all_goals omega

/-- `bool(re.match(glob_to_regex(pat), s))`: compile the glob pattern and test
the string.  A failed compilation (provably impossible for the patterns
`globToRegex` emits) matches nothing. -/
def matchesPat (pat : String) (s : String) : Bool :=
  match reParse (globToRegex pat) with
  | some ts => rmatch ts s.data
  | none => false

/-! ## Totality of glob compilation (pattern structure analysis)

A glob pattern is analysed as a list of chunks (`**`, `*`, `?`, or a plain
character, scanned greedily left to right).  `globToRegex` is shown to emit,
chunk by chunk, `.*`, `[^/]*`, `.`, or the escaped character -- and every such
emission parses. -/

/-- A greedy chunk of a glob pattern. -/
inductive GChunk where
  | dstar
  | star
  | qmark
  | chr (c : Char)
deriving DecidableEq

/-- Greedy chunking of a glob pattern (`**` wins over `*`). -/
def chunks (l : List Char) : List GChunk :=
  match l with
  | [] => []
  | c :: rest =>
    if c = '*' then
      match rest with
      | [] => [GChunk.star]
      | d :: rest' =>
        if d = '*' then GChunk.dstar :: chunks rest'
        else GChunk.star :: chunks (d :: rest')
    else if c = '?' then GChunk.qmark :: chunks rest
    else GChunk.chr c :: chunks rest
termination_by l.length
decreasing_by all_goals simp <;> omega

/-- Concatenate the per-chunk output of a stage. -/
def chunkCat (f : GChunk → List Char) : List GChunk → List Char
  | [] => []
  | c :: cs => f c ++ chunkCat f cs

/-- Per-chunk text after `re.escape`. -/
def chunkEsc : GChunk → List Char
  | GChunk.dstar => ['\\', '*', '\\', '*']
  | GChunk.star => ['\\', '*']
  | GChunk.qmark => ['\\', '?']
  | GChunk.chr c => escapeChar c

/-- Per-chunk text after the first substitution (`\*\*` to `.*`). -/
def chunkR1 : GChunk → List Char
  | GChunk.dstar => ['.', '*']
  | GChunk.star => ['\\', '*']
  | GChunk.qmark => ['\\', '?']
  | GChunk.chr c => escapeChar c

/-- Per-chunk text after the second substitution (`\*` to `[^/]*`). -/
def chunkR2 : GChunk → List Char
  | GChunk.dstar => ['.', '*']
  | GChunk.star => ['[', '^', '/', ']', '*']
  | GChunk.qmark => ['\\', '?']
  | GChunk.chr c => escapeChar c

/-- Per-chunk text after the third substitution (`\?` to `.`). -/
def chunkR3 : GChunk → List Char
  | GChunk.dstar => ['.', '*']
  | GChunk.star => ['[', '^', '/', ']', '*']
  | GChunk.qmark => ['.']
  | GChunk.chr c => escapeChar c

/-- The chunk list does not begin with a chunk whose escape starts with `\*`. -/
def headOk : List GChunk → Bool
  | [] => true
  | GChunk.dstar :: _ => false
  | GChunk.star :: _ => false
  | GChunk.qmark :: _ => true
  | GChunk.chr _ :: _ => true

/-- Well-formedness of a chunk list as produced by greedy chunking: a `*` chunk
is never followed by a starred chunk, and plain-character chunks hold neither
`*` nor `?`. -/
def gWf : List GChunk → Bool
  | [] => true
  | GChunk.dstar :: rest => gWf rest
  | GChunk.star :: rest => headOk rest && gWf rest
  | GChunk.qmark :: rest => gWf rest
  | GChunk.chr c :: rest => !(c = '*') && !(c = '?') && gWf rest

/-! ## The Structural Extractor: Python syntax trees (`_parse_python_file`)

CPython's `ast` module is external to the repository.  A parsed module body is
embedded as `List PyStmt`; statement kinds the analyzer does not inspect are
collapsed into `PyStmt.other` carrying their nested body.  Distinct statements
of a real parse are distinguished by their line numbers, so the structural
equality used below coincides with CPython's object identity for `node in
parent.body` tests. -/

mutual

/-- An embedded Python statement (the fields `_parse_python_file` reads). -/
inductive PyStmt where
  | importStmt (names : List (String × Option String))
  | importFrom (module : Option String) (level : Nat) (names : List (String × Option String))
  | classDef (name : String) (bases : List PyExpr) (body : List PyStmt) (lineno : Nat)
  | funcDef (name : String) (args : List String) (body : List PyStmt) (lineno : Nat)
  | other (body : List PyStmt)

/-- An embedded Python expression (only the shapes `_get_name` reads). -/
inductive PyExpr where
  | name (id : String)
  | attr (value : PyExpr) (attrName : String)
  | otherExpr

end

mutual

def pyStmtBeq : PyStmt → PyStmt → Bool
  | PyStmt.importStmt ns, PyStmt.importStmt ns' => ns = ns'
  | PyStmt.importFrom m l ns, PyStmt.importFrom m' l' ns' => m = m' && l = l' && ns = ns'
  | PyStmt.classDef n b body ln, PyStmt.classDef n' b' body' ln' =>
    n = n' && pyExprsBeq b b' && pyStmtsBeq body body' && ln = ln'
  | PyStmt.funcDef n a body ln, PyStmt.funcDef n' a' body' ln' =>
    n = n' && a = a' && pyStmtsBeq body body' && ln = ln'
  | PyStmt.other body, PyStmt.other body' => pyStmtsBeq body body'
  | _, _ => false

def pyStmtsBeq : List PyStmt → List PyStmt → Bool
  | [], [] => true
  | s :: ss, t :: ts => pyStmtBeq s t && pyStmtsBeq ss ts
  | _, _ => false

def pyExprBeq : PyExpr → PyExpr → Bool
  | PyExpr.name i, PyExpr.name i' => i = i'
  | PyExpr.attr v a, PyExpr.attr v' a' => pyExprBeq v v' && a = a'
  | PyExpr.otherExpr, PyExpr.otherExpr => true
  | _, _ => false

def pyExprsBeq : List PyExpr → List PyExpr → Bool
  | [], [] => true
  | e :: es, f :: fs => pyExprBeq e f && pyExprsBeq es fs
  | _, _ => false

end

/-- The direct child statements held in a node's `body` field (`[]` when the
node has no `body` attribute, matching the `hasattr(parent, 'body')` guard). -/
def pyBody : PyStmt → List PyStmt
  | PyStmt.classDef _ _ body _ => body
  | PyStmt.funcDef _ _ body _ => body
  | PyStmt.other body => body
  | _ => []

mutual

/-- `ast.walk` from a single statement: the statement and all its descendants.
`ast.walk` documents "no specified order"; this embedding enumerates
depth-first, and no verified property depends on the order. -/
def walkStmt : PyStmt → List PyStmt
  | PyStmt.importStmt ns => [PyStmt.importStmt ns]
  | PyStmt.importFrom m l ns => [PyStmt.importFrom m l ns]
  | PyStmt.classDef n b body ln => PyStmt.classDef n b body ln :: walkStmts body
  | PyStmt.funcDef n a body ln => PyStmt.funcDef n a body ln :: walkStmts body
  | PyStmt.other body => PyStmt.other body :: walkStmts body

/-- `ast.walk` over a module body (the `Module` node itself matches none of the
analyzer's `isinstance` branches and is omitted). -/
def walkStmts : List PyStmt → List PyStmt
  | [] => []
  | s :: rest => walkStmt s ++ walkStmts rest

end

/-- `_get_name`: symbolic name of a base-class expression (`a.b.C` flattens to
a dotted string, anything else to `""`). -/
def getName : PyExpr → String
  | PyExpr.name i => i
  | PyExpr.attr v a => getName v ++ "." ++ a
  | PyExpr.otherExpr => ""

/-- Python dict insertion on an association list: overwriting an existing key
keeps its position, a new key is appended. -/
def dictInsert {α : Type} (m : List (String × α)) (k : String) (v : α) : List (String × α) :=
  match m with
  | [] => [(k, v)]
  | (k', v') :: rest => if k' = k then (k, v) :: rest else (k', v') :: dictInsert rest k v

/-- One record of a file's `imports` list.  Python `Import` entries carry keys
`module`/`alias`; `ImportFrom` entries carry `module`/`name`/`alias`; the
optional `name` field distinguishes the two. -/
structure ImportEntry where
  module : String
  name : Option String
  importAlias : Option String
deriving DecidableEq

/-- The per-class record `_parse_python_file` builds. -/
structure ClassInfo where
  name : String
  methods : List String
  line : Nat
  bases : List String
deriving DecidableEq

/-- The per-function record `_parse_python_file` builds. -/
structure FuncInfo where
  name : String
  line : Nat
  args : List String
deriving DecidableEq

/-- The per-file structure record (`_parse_python_file` / `_parse_js_file`). -/
structure FileStructure where
  file_path : String
  classes : List (String × ClassInfo)
  functions : List (String × FuncInfo)
  imports : List ImportEntry
deriving DecidableEq

/-- One step of `_parse_python_file`'s `ast.walk` loop. -/
def parsePyStep (tree : List PyStmt) (fs : FileStructure) (node : PyStmt) : FileStructure :=
  match node with
  | PyStmt.importStmt names =>
    { fs with imports := fs.imports ++ names.map (fun na =>
        { module := na.1, name := none, importAlias := na.2 }) }
  | PyStmt.importFrom m _ names =>
    { fs with imports := fs.imports ++ names.map (fun na =>
        { module := m.getD "", name := some na.1, importAlias := na.2 }) }
  | PyStmt.classDef n bases body ln =>
    let methods := body.filterMap (fun s =>
      match s with
      | PyStmt.funcDef fn _ _ _ => some fn
      | _ => none)
    let ci : ClassInfo := { name := n, methods := methods, line := ln, bases := bases.map getName }
    { fs with classes := dictInsert fs.classes n ci }
  | PyStmt.funcDef n args body ln =>
    if (walkStmts tree).any (fun parent =>
        (match parent with
          | PyStmt.classDef _ _ _ _ => true
          | _ => false) &&
        (pyBody parent).any (fun child => pyStmtBeq child (PyStmt.funcDef n args body ln)))
    then fs
    else
      let fi : FuncInfo := { name := n, line := ln, args := args }
      { fs with functions := dictInsert fs.functions n fi }
  | PyStmt.other _ => fs

/-- `_parse_python_file`: fold the walk of the tree over the statement handler. -/
def parse_python_file (tree : List PyStmt) (file_path : String) : FileStructure :=
  (walkStmts tree).foldl (parsePyStep tree)
    { file_path := file_path, classes := [], functions := [], imports := [] }

/-! ## Source texts

A file's text is embedded by the outcomes the analyzer extracts from it:
CPython's parse result for the PythonLike branch (`none` = SyntaxError), and
the regex-extraction results the ECMAScriptLike branch obtains from the `re`
module (`_parse_js_file`'s import/class/function scans and
`_build_dependency_graph`'s separate, stricter import scan). -/
structure SrcText where
  pyAst : Option (List PyStmt)
  jsImports : List String
  jsClasses : List (String × Option String)
  jsFuncs : List String
  jsDepImports : List String

/-- `_parse_js_file` over the regex-extraction outcomes of a source text. -/
def parse_js_file (t : SrcText) (file_path : String) : FileStructure :=
  let fs0 : FileStructure :=
    { file_path := file_path, classes := [], functions := [], imports :=
        t.jsImports.map (fun m =>
          { module := m, name := none, importAlias := none }) }
  let fs1 := t.jsClasses.foldl (fun fs nb =>
    let ci : ClassInfo := { name := nb.1, methods := [], line := 0, bases := nb.2.toList }
    { fs with classes := dictInsert fs.classes nb.1 ci }) fs0
  t.jsFuncs.foldl (fun fs fn =>
    let fi : FuncInfo := { name := fn, line := 0, args := [] }
    { fs with functions := dictInsert fs.functions fn fi }) fs1

/-- The aggregated structure index (`_parse_code_structure`'s result dict). -/
structure StructureIndex where
  modules : List (String × FileStructure)
  classes : List (String × ClassInfo)
  functions : List (String × FuncInfo)
  imports : List (String × List ImportEntry)
deriving DecidableEq

/-- Is the path handled by the ECMAScriptLike branch
(`file_path.endswith((".js", ".ts", ".jsx", ".tsx"))`)? -/
def isEcmaPath (p : String) : Bool :=
  endsWithS p ".js" || endsWithS p ".ts" || endsWithS p ".jsx" || endsWithS p ".tsx"

/-- One file of `_parse_code_structure`'s loop. -/
def parseStructStep (acc : StructureIndex) (entry : String × SrcText) : StructureIndex :=
  let file_path := entry.1
  if endsWithS file_path ".py" then
    match entry.2.pyAst with
    | some tree =>
      let fileStructure := parse_python_file tree file_path
      let acc1 := { acc with modules := dictInsert acc.modules file_path fileStructure }
      let acc2 := fileStructure.classes.foldl (fun a kv =>
        { a with classes := dictInsert a.classes (file_path ++ "::" ++ kv.1) kv.2 }) acc1
      let acc3 := fileStructure.functions.foldl (fun a kv =>
        { a with functions := dictInsert a.functions (file_path ++ "::" ++ kv.1) kv.2 }) acc2
      { acc3 with imports := dictInsert acc3.imports file_path fileStructure.imports }
    | none => acc
  else if isEcmaPath file_path then
    { acc with modules := dictInsert acc.modules file_path (parse_js_file entry.2 file_path) }
  else acc

/-- `_parse_code_structure` over the file-contents dict. -/
def parse_code_structure (file_contents : List (String × SrcText)) : StructureIndex :=
  file_contents.foldl parseStructStep
    { modules := [], classes := [], functions := [], imports := [] }

/-! ## The Dependency Grapher (`_build_dependency_graph`) -/

/-- Import identifiers a walked Python statement contributes to `deps`:
`Import` adds each alias's first dot-segment, `ImportFrom` adds the module's
first dot-segment when `node.module` is truthy (CPython stores the dots of a
relative import in `level`, not in `module`). -/
def pyDepsOf (node : PyStmt) : List String :=
  match node with
  | PyStmt.importStmt names => names.map (fun na => firstSegDot na.1)
  | PyStmt.importFrom m _ _ =>
    match m with
    | some s => if s = "" then [] else [firstSegDot s]
    | none => []
  | _ => []

/-- The dependency list of one file (before dedup). -/
def fileDeps (file_path : String) (t : SrcText) : List String :=
  if endsWithS file_path ".py" then
    match t.pyAst with
    | some tree => (walkStmts tree).flatMap pyDepsOf
    | none => []
  else if isEcmaPath file_path then
    (t.jsDepImports.filter (fun m => !(startsWithDot m))).map firstSegSlash
  else []

/-- `_build_dependency_graph`: each file maps to its deduplicated dependency
list (`list(set(deps))`; the set's iteration order is unspecified in Python, so
properties below are stated up to membership). -/
def build_dependency_graph (file_contents : List (String × SrcText)) :
    List (String × List String) :=
  file_contents.map (fun pc => (pc.1, (fileDeps pc.1 pc.2).eraseDups))

/-! ## The Source Acquirer and File Collector (`analyze`, `_collect_files`,
`_read_files`, `_generate_structure_summary`) -/

/-- One directory entry `Path.rglob("*")` would yield, described by its path
relative to the root (with the OS separators it came with), whether it is a
regular file, whether `stat()` succeeds, its size, whether `open()`/`read()`
succeeds, and its content. -/
structure FsEntry where
  path : String
  isFile : Bool
  statOk : Bool
  size : Nat
  readOk : Bool
  text : SrcText

/-- The relative path with separators normalised for matching:
`str(rel_path).replace("\\", "/")`. -/
def relPathStr (p : String) : String := ⟨replaceAll ['\\'] ['/'] p.data⟩

/-- The path order `sorted()` uses on `Path` objects: `PurePath` comparison is
lexicographic on the tuple of path components (`_cparts`), components compared
by code point.  Below a common root it reduces to comparing the relative
paths' component sequences — so `a/b.py` precedes `a.py`, unlike raw-string
order. -/
def pathLe (a b : String) : Prop := partsLe (splitSlash a.data) (splitSlash b.data) = true

/-- Code-point lexicographic order on the raw relative-path string; the
collector's output is NOT in general sorted by this order (see `pathLe`). -/
def strOrder (a b : String) : Prop := lexLe a.data b.data = true

instance : DecidableRel pathLe := fun a b => inferInstanceAs (Decidable (_ = true))

/-- Does the candidate file survive the size and pattern checks of
`_collect_files`? -/
def collectKeep (include_patterns exclude_patterns : List String) (max_file_size : Nat)
    (e : FsEntry) : Bool :=
  e.isFile && e.statOk && !(e.size > max_file_size) &&
    !(exclude_patterns.any (fun pat => matchesPat pat (relPathStr e.path))) &&
    (include_patterns.any (fun pat => matchesPat pat (relPathStr e.path)))

/-- `_collect_files`: filter the enumerated tree, then `sorted()`. -/
def collect_files (entries : List FsEntry) (include_patterns exclude_patterns : List String)
    (max_file_size : Nat) : List String :=
  List.insertionSort pathLe
    ((entries.filter (collectKeep include_patterns exclude_patterns max_file_size)).map
      fun e => e.path)

/-- `_read_files`: read the collected files in order, keyed by relative path;
files whose read raises are silently skipped. -/
def read_files (entries : List FsEntry) (files : List String) : List (String × SrcText) :=
  files.foldl (fun acc p =>
    match entries.find? (fun e => e.path = p) with
    | some e => if e.readOk then acc ++ [(p, e.text)] else acc
    | none => acc) []

/-- `_generate_structure_summary`. -/
def generate_structure_summary (s : StructureIndex) (_dependencies : List (String × List String)) :
    String :=
  let numFiles := s.modules.length
  let numClasses := s.classes.length
  let numFunctions := s.functions.length
  let parts := ["Codebase Structure:",
    "- " ++ toString numFiles ++ " files analyzed",
    "- " ++ toString numClasses ++ " classes",
    "- " ++ toString numFunctions ++ " functions"]
  let parts :=
    if s.modules.isEmpty then parts
    else
      parts ++ ["\nMain Modules:"] ++
        ((s.modules.map Prod.fst).take 10).map (fun fp => "  - " ++ fp) ++
        (if s.modules.length > 10 then
          ["  ... and " ++ toString (s.modules.length - 10) ++ " more"]
        else [])
  String.intercalate "\n" parts

/-- Python truthiness of an optional string argument (`None` and `""` are falsy). -/
def truthyStr : Option String → Bool
  | none => false
  | some s => !(s = "")

/-- `Config.DEFAULT_INCLUDE_PATTERNS`. -/
def DEFAULT_INCLUDE_PATTERNS : List String := ["*.py", "*.js", "*.ts", "*.jsx", "*.tsx"]

/-- `Config.DEFAULT_EXCLUDE_PATTERNS`. -/
def DEFAULT_EXCLUDE_PATTERNS : List String :=
  ["**/node_modules/**", "**/__pycache__/**", "**/.git/**"]

/-- `include_patterns or Config.DEFAULT_INCLUDE_PATTERNS`: Python `or`
truthiness (both `None` and `[]` fall back to the default). -/
def patternsOrDefault (given : Option (List String)) (dflt : List String) : List String :=
  match given with
  | none => dflt
  | some l => if l.isEmpty then dflt else l

/-- The observable side effects `analyze` performs, in order. -/
inductive AnalyzeAction where
  | cloneRepo (url : String)
  | collectFilesStep
  | readFilesStep
  | parseStructureStep
  | buildDependencyGraphStep
  | generateSummaryStep
deriving DecidableEq

/-- The environment `analyze` runs against: the tree a clone would produce (and
the temporary directory it lands in), and the tree found at a local path. -/
structure AnalyzeWorld where
  cloneFs : String → List FsEntry
  tempPath : String
  localFs : String → List FsEntry

/-- The result dictionary of `analyze`. -/
structure AnalyzeResult where
  files : List String
  file_contents : List (String × SrcText)
  structureIndex : StructureIndex
  dependencies : List (String × List String)
  summary : String
  root_path : String

/-- `analyze`: validate the caller contract, resolve the source tree, then run
collection, reading, parsing, dependency extraction and summarisation.  The
returned action trace records the side effects in order; a `ValueError` is an
`Except.error` carrying the Python message, and nothing is traced before the
contract check. -/
def analyze (repo_url local_path : Option String)
    (include_patterns exclude_patterns : Option (List String))
    (max_file_size : Nat) (w : AnalyzeWorld) :
    Except String AnalyzeResult × List AnalyzeAction :=
  if truthyStr repo_url && truthyStr local_path then
    (Except.error "Cannot specify both repo_url and local_path", [])
  else if !(truthyStr repo_url) && !(truthyStr local_path) then
    (Except.error "Must specify either repo_url or local_path", [])
  else
    let inc := patternsOrDefault include_patterns DEFAULT_INCLUDE_PATTERNS
    let exc := patternsOrDefault exclude_patterns DEFAULT_EXCLUDE_PATTERNS
    let url := repo_url.getD ""
    let entries := if truthyStr repo_url then w.cloneFs url else w.localFs (local_path.getD "")
    let rootPath := if truthyStr repo_url then w.tempPath else local_path.getD ""
    let preActions := if truthyStr repo_url then [AnalyzeAction.cloneRepo url] else []
    let files := collect_files entries inc exc max_file_size
    let fileContents := read_files entries files
    let structureIndex := parse_code_structure fileContents
    let dependencies := build_dependency_graph fileContents
    let summary := generate_structure_summary structureIndex dependencies
    let result : AnalyzeResult :=
      { files := files, file_contents := fileContents,
        structureIndex := structureIndex, dependencies := dependencies,
        summary := summary, root_path := rootPath }
    (Except.ok result,
      preActions ++ [AnalyzeAction.collectFilesStep, AnalyzeAction.readFilesStep,
        AnalyzeAction.parseStructureStep, AnalyzeAction.buildDependencyGraphStep,
        AnalyzeAction.generateSummaryStep])

/-! ## The Knowledge Graph Builder (`build_knowledge_graph`) -/

/-- A node-metadata value (string or list of strings, the two shapes the
builder stores). -/
inductive MetaVal where
  | s (v : String)
  | l (vs : List String)
deriving DecidableEq

/-- A knowledge-graph node (`KnowledgeGraphNode`). -/
structure KGNode where
  id : String
  label : String
  type : String
  file_path : String
  metadata : List (String × MetaVal)
deriving DecidableEq

/-- A knowledge-graph edge (`KnowledgeGraphEdge`; the builder never sets edge
metadata). -/
structure KGEdge where
  source : String
  target : String
  relationship : String
deriving DecidableEq

/-- A knowledge graph (`KnowledgeGraph`). -/
structure KnowledgeGraph where
  nodes : List KGNode
  edges : List KGEdge
deriving DecidableEq

/-- The builder's working state: the node list, the edge list and the
`node_ids` seen-set (kept as the list of ids in insertion order; only
membership is consulted). -/
structure KGBuild where
  nodes : List KGNode
  edges : List KGEdge
  node_ids : List String
deriving DecidableEq

/-- `if node_id not in node_ids: nodes.append(node); node_ids.add(node_id)`. -/
def addNodeIfNew (st : KGBuild) (n : KGNode) : KGBuild :=
  if st.node_ids.contains n.id then st
  else { st with nodes := st.nodes ++ [n], node_ids := st.node_ids ++ [n.id] }

/-- Append an edge (edges carry no seen-set). -/
def addEdge (st : KGBuild) (e : KGEdge) : KGBuild :=
  { st with edges := st.edges ++ [e] }

/-- The file node built for a module entry. -/
def fileNodeOf (file_path : String) : KGNode :=
  { id := "file:" ++ file_path, label := lastSegSlash file_path, type := "file",
    file_path := file_path, metadata := [("path", MetaVal.s file_path)] }

/-- Phase 1: a file node per module entry. -/
def kgFilePhase (st : KGBuild) (modules : List (String × FileStructure)) : KGBuild :=
  modules.foldl (fun s m => addNodeIfNew s (fileNodeOf m.1)) st

/-- The class node built for a class entry. -/
def classNodeOf (class_key : String) (ci : ClassInfo) : KGNode :=
  { id := "class:" ++ class_key, label := (splitCC class_key).2, type := "class",
    file_path := (splitCC class_key).1,
    metadata := [("methods", MetaVal.l ci.methods), ("bases", MetaVal.l ci.bases)] }

/-- Phase 2 body: node, containment edge, inheritance edges for one class entry. -/
def kgClassStep (st : KGBuild) (kv : String × ClassInfo) : KGBuild :=
  let file_path := (splitCC kv.1).1
  let node_id := "class:" ++ kv.1
  let st1 := addNodeIfNew st (classNodeOf kv.1 kv.2)
  let file_node_id := "file:" ++ file_path
  let st2 :=
    if st1.node_ids.contains file_node_id then
      addEdge st1 { source := file_node_id, target := node_id, relationship := "contains" }
    else st1
  kv.2.bases.foldl (fun s b =>
    let base_node_id := "class:" ++ file_path ++ "::" ++ b
    if s.node_ids.contains base_node_id then
      addEdge s { source := node_id, target := base_node_id, relationship := "inherits" }
    else s) st2

/-- Phase 2: class nodes and their edges. -/
def kgClassPhase (st : KGBuild) (classes : List (String × ClassInfo)) : KGBuild :=
  classes.foldl kgClassStep st

/-- The function node built for a function entry. -/
def funcNodeOf (func_key : String) (fi : FuncInfo) : KGNode :=
  { id := "function:" ++ func_key, label := (splitCC func_key).2, type := "function",
    file_path := (splitCC func_key).1, metadata := [("args", MetaVal.l fi.args)] }

/-- Phase 3 body: node and containment edge for one function entry. -/
def kgFuncStep (st : KGBuild) (kv : String × FuncInfo) : KGBuild :=
  let file_path := (splitCC kv.1).1
  let node_id := "function:" ++ kv.1
  let st1 := addNodeIfNew st (funcNodeOf kv.1 kv.2)
  let file_node_id := "file:" ++ file_path
  if st1.node_ids.contains file_node_id then
    addEdge st1 { source := file_node_id, target := node_id, relationship := "contains" }
  else st1

/-- Phase 3: function nodes and containment edges. -/
def kgFuncPhase (st : KGBuild) (functions : List (String × FuncInfo)) : KGBuild :=
  functions.foldl kgFuncStep st

/-- The first module whose path contains the dependency name as a substring or
ends with `/{dep}.py` (the `for ... if ...: break` scan; the importing file is
not excluded from the candidates). -/
def depTargetScan (modules : List (String × FileStructure)) (dep : String) : Option String :=
  (modules.find? (fun m => strContains m.1 dep || endsWithS m.1 ("/" ++ dep ++ ".py"))).map
    Prod.fst

/-- Phase 4 body: one import edge attempt. -/
def kgDepStep (modules : List (String × FileStructure)) (file_node_id : String)
    (st : KGBuild) (dep : String) : KGBuild :=
  match depTargetScan modules dep with
  | some other_file =>
    let dep_node_id := "file:" ++ other_file
    if st.node_ids.contains dep_node_id then
      addEdge st { source := file_node_id, target := dep_node_id, relationship := "imports" }
    else st
  | none => st

/-- Phase 4: import edges from the dependency graph. -/
def kgDepPhase (st : KGBuild) (modules : List (String × FileStructure))
    (dependencies : List (String × List String)) : KGBuild :=
  dependencies.foldl (fun s fd =>
    let file_node_id := "file:" ++ fd.1
    if !(s.node_ids.contains file_node_id) then s
    else fd.2.foldl (kgDepStep modules file_node_id) s) st

/-- `build_knowledge_graph`: file nodes, class nodes and edges, function nodes
and edges, then import edges. -/
def build_knowledge_graph (structureIndex : StructureIndex)
    (dependencies : List (String × List String)) : KnowledgeGraph :=
  let st0 : KGBuild := { nodes := [], edges := [], node_ids := [] }
  let st1 := kgFilePhase st0 structureIndex.modules
  let st2 := kgClassPhase st1 structureIndex.classes
  let st3 := kgFuncPhase st2 structureIndex.functions
  let st4 := kgDepPhase st3 structureIndex.modules dependencies
  { nodes := st4.nodes, edges := st4.edges }

/-! ## Order facts about the path comparison -/

def strLt_irrefl (a : List Char) : strLt a a = false := by
  induction a with
  | nil => rfl
  | cons x xs ih =>
    rw [strLt]
    split_ifs <;> first | rfl | exact ih | omega

def strLt_trans (a : List Char) : ∀ b c, strLt a b = true → strLt b c = true →
    strLt a c = true := by
  induction a with
  | nil =>
    intro b c h1 h2
    cases b with
    | nil => simp [strLt] at h1
    | cons y ys =>
      cases c with
      | nil => simp [strLt] at h2
      | cons z zs => rfl
  | cons x xs ih =>
    intro b c h1 h2
    cases b with
    | nil => simp [strLt] at h1
    | cons y ys =>
      cases c with
      | nil => simp [strLt] at h2
      | cons z zs =>
        rw [strLt] at h1 h2 ⊢
        split_ifs at h1 h2 ⊢ <;>
          first
          | rfl
          | exact ih ys zs h1 h2
          | omega

def strLt_asymm (a b : List Char) (h : strLt a b = true) : strLt b a = false := by
  cases hba : strLt b a with
  | false => rfl
  | true =>
    have := strLt_trans a b a h hba
    rw [strLt_irrefl] at this
    exact absurd this (by simp)

def strLt_eq (a : List Char) : ∀ b, strLt a b = false → strLt b a = false → a = b := by
  induction a with
  | nil =>
    intro b h1 _
    cases b with
    | nil => rfl
    | cons y ys => simp [strLt] at h1
  | cons x xs ih =>
    intro b h1 h2
    cases b with
    | nil => simp [strLt] at h2
    | cons y ys =>
      rw [strLt] at h1 h2
      by_cases hxy : x.toNat < y.toNat
      · rw [if_pos hxy] at h1
        exact absurd h1 (by simp)
      · by_cases hyx : y.toNat < x.toNat
        · rw [if_pos hyx] at h2
          exact absurd h2 (by simp)
        · rw [if_neg hxy, if_neg hyx] at h1
          rw [if_neg hyx, if_neg hxy] at h2
          have hn : x.toNat = y.toNat := by omega
          have hx : x = y := by
            apply Char.eq_of_val_eq
            apply UInt32.eq_of_toBitVec_eq
            apply BitVec.eq_of_toNat_eq
            exact hn
          rw [hx, ih ys h1 h2]

def partsLe_total (x : List (List Char)) : ∀ y, partsLe x y = true ∨ partsLe y x = true := by
  induction x with
  | nil => intro y; left; rfl
  | cons a as ih =>
    intro y
    cases y with
    | nil => right; rfl
    | cons b bs =>
      by_cases hab : strLt a b = true
      · left
        rw [partsLe, if_pos hab]
      · by_cases hba : strLt b a = true
        · right
          rw [partsLe, if_pos hba]
        · rcases ih bs with h | h
          · left
            rw [partsLe, if_neg hab, if_neg hba]
            exact h
          · right
            rw [partsLe, if_neg hba, if_neg hab]
            exact h

def partsLe_trans (x : List (List Char)) : ∀ y z, partsLe x y = true → partsLe y z = true →
    partsLe x z = true := by
  induction x with
  | nil => intro y z _ _; rfl
  | cons a as ih =>
    intro y z h1 h2
    cases y with
    | nil => simp [partsLe] at h1
    | cons b bs =>
      cases z with
      | nil => simp [partsLe] at h2
      | cons c cs =>
        rw [partsLe] at h1 h2 ⊢
        by_cases hab : strLt a b = true
        · by_cases hbc : strLt b c = true
          · rw [if_pos (strLt_trans a b c hab hbc)]
          · by_cases hcb : strLt c b = true
            · rw [if_neg hbc, if_pos hcb] at h2
              exact absurd h2 (by simp)
            · have hbc' : b = c := strLt_eq b c (by simpa using hbc) (by simpa using hcb)
              subst hbc'
              rw [if_pos hab]
        · by_cases hba : strLt b a = true
          · rw [if_neg hab, if_pos hba] at h1
            exact absurd h1 (by simp)
          · have hab' : a = b := strLt_eq a b (by simpa using hab) (by simpa using hba)
            subst hab'
            rw [if_neg hab, if_neg hba] at h1
            by_cases hac : strLt a c = true
            · rw [if_pos hac]
            · by_cases hca : strLt c a = true
              · rw [if_neg hac, if_pos hca] at h2
                exact absurd h2 (by simp)
              · have hac' : a = c := strLt_eq a c (by simpa using hac) (by simpa using hca)
                subst hac'
                rw [if_neg hac, if_neg hca] at h2
                rw [if_neg hac, if_neg hca]
                exact ih bs cs h1 h2

def partsLe_antisymm (x : List (List Char)) : ∀ y, partsLe x y = true → partsLe y x = true →
    x = y := by
  induction x with
  | nil =>
    intro y _ h2
    cases y with
    | nil => rfl
    | cons b bs => simp [partsLe] at h2
  | cons a as ih =>
    intro y h1 h2
    cases y with
    | nil => simp [partsLe] at h1
    | cons b bs =>
      rw [partsLe] at h1 h2
      by_cases hab : strLt a b = true
      · rw [if_neg (by simp [strLt_asymm a b hab]), if_pos hab] at h2
        exact absurd h2 (by simp)
      · by_cases hba : strLt b a = true
        · rw [if_neg hab, if_pos hba] at h1
          exact absurd h1 (by simp)
        · rw [if_neg hab, if_neg hba] at h1
          rw [if_neg hba, if_neg hab] at h2
          have hb : a = b := strLt_eq a b (by simpa using hab) (by simpa using hba)
          rw [hb, ih bs h1 h2]

def splitSlashAux_ne_nil (l : List Char) : ∀ acc, splitSlashAux acc l ≠ [] := by
  induction l with
  | nil => intro acc h; simp [splitSlashAux] at h
  | cons c rest ih =>
    intro acc h
    rw [splitSlashAux] at h
    by_cases hc : c = '/'
    · rw [if_pos hc] at h
      simp at h
    · rw [if_neg hc] at h
      exact ih _ h

def joinSlash_splitSlashAux (l : List Char) : ∀ acc,
    joinSlash (splitSlashAux acc l) = acc.reverse ++ l := by
  induction l with
  | nil => intro acc; simp [splitSlashAux, joinSlash]
  | cons c rest ih =>
    intro acc
    rw [splitSlashAux]
    by_cases hc : c = '/'
    · rw [if_pos hc]
      rcases h0 : splitSlashAux [] rest with _ | ⟨s0, S⟩
      · exact absurd h0 (splitSlashAux_ne_nil rest [])
      · rw [joinSlash, ← h0, ih []]
        simp [hc]
    · rw [if_neg hc, ih (c :: acc)]
      simp

def splitSlash_inj (a b : List Char) (h : splitSlash a = splitSlash b) : a = b := by
  have ha : joinSlash (splitSlash a) = a := by
    unfold splitSlash
    simpa using joinSlash_splitSlashAux a []
  have hb : joinSlash (splitSlash b) = b := by
    unfold splitSlash
    simpa using joinSlash_splitSlashAux b []
  rw [← ha, ← hb, h]

instance : IsTotal String pathLe :=
  ⟨fun a b => by
    rcases partsLe_total (splitSlash a.data) (splitSlash b.data) with h | h
    · exact Or.inl h
    · exact Or.inr h⟩

instance : IsTrans String pathLe :=
  ⟨fun a b c h1 h2 => partsLe_trans (splitSlash a.data) (splitSlash b.data)
    (splitSlash c.data) h1 h2⟩

instance : IsAntisymm String pathLe :=
  ⟨fun a b h1 h2 => by
    have hsplit := partsLe_antisymm (splitSlash a.data) (splitSlash b.data) h1 h2
    have hdata : a.data = b.data := splitSlash_inj a.data b.data hsplit
    cases a
    cases b
    exact congrArg String.mk hdata⟩

/-! ## Concrete scenarios -/

/-- An empty source text (used where content is irrelevant). -/
def emptyText : SrcText :=
  { pyAst := none, jsImports := [], jsClasses := [], jsFuncs := [], jsDepImports := [] }

/-- The syntax tree CPython produces for `a.py` containing `import os` and
`from .utils import helper` (`ImportFrom(module='utils', level=1)`: the dot of
the relative import lives in `level`, not in `module`). -/
def c1Ast : List PyStmt :=
  [PyStmt.importStmt [("os", none)],
   PyStmt.importFrom (some "utils") 1 [("helper", none)]]

/-- The source text of the C1 scenario's `a.py`. -/
def c1Text : SrcText := { emptyText with pyAst := some c1Ast }

/-- The dependency list computed for `a.py` in the C1 scenario. -/
def c1Deps : List String :=
  ((build_dependency_graph [("a.py", c1Text)]).lookup "a.py").getD []

/-- The syntax tree of a file defining `outer` with a nested `inner`:
`def outer():` / `    def inner(): pass`. -/
def c2Ast : List PyStmt :=
  [PyStmt.funcDef "outer" [] [PyStmt.funcDef "inner" [] [] 2] 1]

/-- The two-file scenario of C6: `a.py` defines `Base`, `b.py` defines
`Child(Base)`. -/
def c6Fc : List (String × SrcText) :=
  [("a.py", { emptyText with pyAst := some [PyStmt.classDef "Base" [] [] 1] }),
   ("b.py", { emptyText with pyAst := some [PyStmt.classDef "Child" [PyExpr.name "Base"] [] 1] })]

/-- The knowledge graph of the C6 scenario. -/
def c6Graph : KnowledgeGraph :=
  build_knowledge_graph (parse_code_structure c6Fc) (build_dependency_graph c6Fc)

/-- The single-file scenario of C10: `os_utils.py` contains `import os`. -/
def c10Fc : List (String × SrcText) :=
  [("os_utils.py", { emptyText with pyAst := some [PyStmt.importStmt [("os", none)]] })]

/-- The knowledge graph of the C10 scenario. -/
def c10Graph : KnowledgeGraph :=
  build_knowledge_graph (parse_code_structure c10Fc) (build_dependency_graph c10Fc)

/-- A concrete file entry for the collector witnesses. -/
def wEntryA : FsEntry :=
  { path := "a.py", isFile := true, statOk := true, size := 10, readOk := true,
    text := emptyText }

/-- A second concrete file entry for the collector witnesses. -/
def wEntryB : FsEntry :=
  { path := "b.py", isFile := true, statOk := true, size := 10, readOk := true,
    text := emptyText }

/-- The top-level file `a.py` of the C5 counterexample tree. -/
def c5EntryTop : FsEntry :=
  { path := "a.py", isFile := true, statOk := true, size := 10, readOk := true,
    text := emptyText }

/-- The directory `a` of the C5 counterexample tree (`rglob` enumerates it; the
collector drops non-regular-files). -/
def c5EntryDir : FsEntry :=
  { path := "a", isFile := false, statOk := true, size := 0, readOk := true,
    text := emptyText }

/-- The nested file `a/b.py` of the C5 counterexample tree. -/
def c5EntryNested : FsEntry :=
  { path := "a/b.py", isFile := true, statOk := true, size := 10, readOk := true,
    text := emptyText }

/-- The builder invariant: node ids are duplicate-free and the seen-set tracks
exactly the ids of the appended nodes. -/
def kgInv (st : KGBuild) : Prop :=
  (st.nodes.map KGNode.id).Nodup ∧
  ∀ i : String, st.node_ids.contains i = true ↔ i ∈ st.nodes.map KGNode.id

/-! ## Provenance of class and function keys and nodes (C9) -/

/-- A global class/function key of the structure index: file part (a PythonLike
path present in the input) joined to a member name by `"::"`. -/
def pyKey (paths : List String) (k : String) : Prop :=
  ∃ p n, k = p ++ "::" ++ n ∧ endsWithS p ".py" = true ∧ p ∈ paths

/-- The key invariant carried through `_parse_code_structure`'s fold. -/
def keysInv (paths : List String) (acc : StructureIndex) : Prop :=
  (∀ k ∈ acc.classes.map Prod.fst, pyKey paths k) ∧
  (∀ k ∈ acc.functions.map Prod.fst, pyKey paths k)

/-- Where a node of the built graph can come from. -/
def nodeFrom (s : StructureIndex) (n : KGNode) : Prop :=
  n.type = "file" ∨
  (∃ kv ∈ s.classes, n = classNodeOf kv.1 kv.2) ∨
  (∃ kv ∈ s.functions, n = funcNodeOf kv.1 kv.2)

/-- The two-file input of the C9 witness: one PythonLike file defining a class
and one ECMAScriptLike file whose regex scan finds a class. -/
def c9Fc : List (String × SrcText) :=
  [("m.py", { emptyText with pyAst := some [PyStmt.classDef "A" [] [] 1] }),
   ("x.ts", { emptyText with jsClasses := [("Foo", none)] })]

@[simp] theorem reParseAux_nil (acc : List RTok) : reParseAux [] acc = some acc.reverse := by
  rw [reParseAux.eq_def]

@[simp] theorem reParseAux_bslash_nil (acc : List RTok) : reParseAux ['\\'] acc = none := by
  rw [reParseAux.eq_def]; simp

@[simp] theorem reParseAux_bslash (d : Char) (rest : List Char) (acc : List RTok) :
    reParseAux ('\\' :: d :: rest) acc = reParseAux rest (RTok.atom (RAtom.lit d) :: acc) := by
  rw [reParseAux.eq_def]; simp

@[simp] theorem reParseAux_caret (rest : List Char) (acc : List RTok) :
    reParseAux ('^' :: rest) acc = reParseAux rest (RTok.anchor :: acc) := by
  rw [reParseAux.eq_def]; simp

@[simp] theorem reParseAux_dot (rest : List Char) (acc : List RTok) :
    reParseAux ('.' :: rest) acc = reParseAux rest (RTok.atom RAtom.dot :: acc) := by
  rw [reParseAux.eq_def]; simp

@[simp] theorem reParseAux_lbrack (rest : List Char) (acc : List RTok) :
    reParseAux ('[' :: rest) acc = clsStart rest acc := by
  rw [reParseAux.eq_def]; simp

@[simp] theorem reParseAux_star_atom (rest : List Char) (a : RAtom) (acc : List RTok) :
    reParseAux ('*' :: rest) (RTok.atom a :: acc) = reParseAux rest (RTok.star a :: acc) := by
  rw [reParseAux.eq_def]; simp

@[simp] theorem reParseAux_other (c : Char) (rest : List Char) (acc : List RTok)
    (h1 : ¬ c = '\\') (h2 : ¬ c = '^') (h3 : ¬ c = '.') (h4 : ¬ c = '[') (h5 : ¬ c = '*') :
    reParseAux (c :: rest) acc = reParseAux rest (RTok.atom (RAtom.lit c) :: acc) := by
  rw [reParseAux.eq_def]; simp [h1, h2, h3, h4, h5]

@[simp] theorem clsStart_caret (d : Char) (t : List Char) (acc : List RTok) :
    clsStart ('^' :: d :: t) acc = clsMems [d] true t acc := by
  rw [clsStart.eq_def]; simp

@[simp] theorem clsStart_other (c : Char) (t : List Char) (acc : List RTok) (h : ¬ c = '^') :
    clsStart (c :: t) acc = clsMems [c] false t acc := by
  rw [clsStart.eq_def]; simp [h]

@[simp] theorem clsMems_close (mem : List Char) (neg : Bool) (t : List Char) (acc : List RTok) :
    clsMems mem neg (']' :: t) acc =
      reParseAux t (RTok.atom (RAtom.cls neg mem.reverse) :: acc) := by
  rw [clsMems.eq_def]; simp

@[simp] theorem clsMems_other (mem : List Char) (neg : Bool) (c : Char) (t : List Char)
    (acc : List RTok) (h : ¬ c = ']') :
    clsMems mem neg (c :: t) acc = clsMems (c :: mem) neg t acc := by
  rw [clsMems.eq_def]; simp [h]

theorem chunks_nil : chunks [] = [] := by rw [chunks]

theorem chunks_star_nil : chunks ['*'] = [GChunk.star] := by rw [chunks.eq_def]; simp

theorem chunks_dstar (r : List Char) : chunks ('*' :: '*' :: r) = GChunk.dstar :: chunks r := by
  rw [chunks.eq_def]; simp

theorem chunks_star (d : Char) (r : List Char) (hd : ¬ d = '*') :
    chunks ('*' :: d :: r) = GChunk.star :: chunks (d :: r) := by
  rw [chunks.eq_def]; simp [hd]

theorem chunks_qmark (r : List Char) : chunks ('?' :: r) = GChunk.qmark :: chunks r := by
  rw [chunks.eq_def]; simp

theorem chunks_chr (d : Char) (r : List Char) (hs : ¬ d = '*') (hq : ¬ d = '?') :
    chunks (d :: r) = GChunk.chr d :: chunks r := by
  rw [chunks.eq_def]; simp [hs, hq]

theorem headOk_chunks (l : List Char) (h : ∀ t, l ≠ '*' :: t) : headOk (chunks l) = true := by
  match l with
  | [] => rw [chunks_nil]; rfl
  | c :: rest =>
    have hc : ¬(c = '*') := fun he => h rest (by rw [he])
    by_cases hq : c = '?'
    · subst hq; rw [chunks_qmark]; rfl
    · rw [chunks_chr c rest hc hq]; rfl

theorem gWf_chunks (l : List Char) : gWf (chunks l) = true := by
  induction l using chunks.induct with
  | case1 => rw [chunks_nil]; rfl
  | case2 => rw [chunks_star_nil]; rfl
  | case3 rest' ih => rw [chunks_dstar, gWf]; exact ih
  | case4 d rest' hd ih =>
    have h1 : headOk (chunks (d :: rest')) = true :=
      headOk_chunks _ (fun t he => hd (by injection he))
    rw [chunks_star d rest' hd, gWf, h1, ih]
    rfl
  | case5 rest' hq ih => rw [chunks_qmark, gWf]; exact ih
  | case6 d rest' hs hq ih => rw [chunks_chr d rest' hs hq, gWf]; simp [hs, hq, ih]

theorem reEscape_chunks (l : List Char) : reEscape l = chunkCat chunkEsc (chunks l) := by
  induction l using chunks.induct with
  | case1 => rw [chunks_nil]; rfl
  | case2 =>
    rw [chunks_star_nil]
    show escapeChar '*' ++ reEscape [] = chunkCat chunkEsc [GChunk.star]
    rfl
  | case3 rest' ih =>
    rw [chunks_dstar, chunkCat]
    show escapeChar '*' ++ (escapeChar '*' ++ reEscape rest') = chunkEsc GChunk.dstar ++ chunkCat chunkEsc (chunks rest')
    rw [ih]
    rfl
  | case4 d rest' hd ih =>
    rw [chunks_star d rest' hd, chunkCat]
    show escapeChar '*' ++ reEscape (d :: rest') = chunkEsc GChunk.star ++ chunkCat chunkEsc (chunks (d :: rest'))
    rw [ih]
    rfl
  | case5 rest' hq ih =>
    rw [chunks_qmark, chunkCat]
    show escapeChar '?' ++ reEscape rest' = chunkEsc GChunk.qmark ++ chunkCat chunkEsc (chunks rest')
    rw [ih]
    rfl
  | case6 d rest' hs hq ih =>
    rw [chunks_chr d rest' hs hq, chunkCat]
    show escapeChar d ++ reEscape rest' = chunkEsc (GChunk.chr d) ++ chunkCat chunkEsc (chunks rest')
    rw [ih]
    rfl

theorem notSpecial_facts (c : Char) (h : reSpecials.contains c = false) :
    ¬ c = '\\' ∧ ¬ c = '*' ∧ ¬ c = '?' ∧ ¬ c = '.' ∧ ¬ c = '[' ∧ ¬ c = '^' := by
  refine ⟨?_, ?_, ?_, ?_, ?_, ?_⟩ <;> (intro he; rw [he] at h; revert h; decide)

theorem escapeChar_special (c : Char) (h : reSpecials.contains c = true) :
    escapeChar c = ['\\', c] := by rw [escapeChar, if_pos h]

theorem escapeChar_plain (c : Char) (h : reSpecials.contains c = false) :
    escapeChar c = [c] := by
  unfold escapeChar
  split
  · next hmem => rw [h] at hmem; simp at hmem
  · rfl

theorem gWf_chr (c : Char) (rest : List GChunk) (hw : gWf (GChunk.chr c :: rest) = true) :
    ¬ c = '*' ∧ ¬ c = '?' ∧ gWf rest = true := by
  rw [gWf] at hw
  simp only [Bool.and_eq_true, Bool.not_eq_true', decide_eq_false_iff_not] at hw
  exact ⟨hw.1.1, hw.1.2, hw.2⟩

/-- After escaping, a well-formed chunk concatenation never starts with `*`. -/
theorem escCat_headNotStar (cs : List GChunk) (hw : gWf cs = true) :
    isPrefixL ['*', '\\', '*'] (chunkCat chunkEsc cs) = false := by
  match cs with
  | [] => rfl
  | GChunk.dstar :: rest => simp [chunkCat, chunkEsc, isPrefixL]
  | GChunk.star :: rest => simp [chunkCat, chunkEsc, isPrefixL]
  | GChunk.qmark :: rest => simp [chunkCat, chunkEsc, isPrefixL]
  | GChunk.chr c :: rest =>
    obtain ⟨hs, hq, hr⟩ := gWf_chr c rest hw
    by_cases hsp : reSpecials.contains c = true
    · simp [chunkCat, chunkEsc, escapeChar_special c hsp, isPrefixL]
    · simp only [Bool.not_eq_true] at hsp
      have hne := notSpecial_facts c hsp
      simp [chunkCat, chunkEsc, escapeChar_plain c hsp, isPrefixL, Ne.symm hs]

/-- After escaping, a well-formed chunk concatenation with an `headOk` head never
starts with `\*`. -/
theorem escCat_noBstar (cs : List GChunk) (hw : gWf cs = true) (hh : headOk cs = true) :
    isPrefixL ['\\', '*'] (chunkCat chunkEsc cs) = false := by
  match cs with
  | [] => rfl
  | GChunk.dstar :: rest => simp [headOk] at hh
  | GChunk.star :: rest => simp [headOk] at hh
  | GChunk.qmark :: rest => simp [chunkCat, chunkEsc, isPrefixL]
  | GChunk.chr c :: rest =>
    obtain ⟨hs, hq, hr⟩ := gWf_chr c rest hw
    by_cases hsp : reSpecials.contains c = true
    · simp [chunkCat, chunkEsc, escapeChar_special c hsp, isPrefixL, Ne.symm hs]
    · simp only [Bool.not_eq_true] at hsp
      have hne := notSpecial_facts c hsp
      simp [chunkCat, chunkEsc, escapeChar_plain c hsp, isPrefixL, Ne.symm hne.1]

/-- First substitution: `\*\*` to `.*`, chunk by chunk. -/
theorem replace1_chunks (cs : List GChunk) (hw : gWf cs = true) :
    replAux '\\' ['*', '\\', '*'] ['.', '*'] (chunkCat chunkEsc cs) = chunkCat chunkR1 cs := by
  induction cs with
  | nil => simp [chunkCat, replAux]
  | cons ch rest ih =>
    match ch with
    | GChunk.dstar =>
      rw [gWf] at hw
      simp [chunkCat, chunkEsc, chunkR1, replAux, isPrefixL, ih hw]
    | GChunk.star =>
      rw [gWf] at hw
      simp only [Bool.and_eq_true] at hw
      have hnb := escCat_noBstar rest hw.2 hw.1
      simp [chunkCat, chunkEsc, chunkR1, replAux, isPrefixL, hnb, ih hw.2]
    | GChunk.qmark =>
      rw [gWf] at hw
      simp [chunkCat, chunkEsc, chunkR1, replAux, isPrefixL, ih hw]
    | GChunk.chr c =>
      obtain ⟨hs, hq, hr⟩ := gWf_chr c rest hw
      by_cases hsp : reSpecials.contains c = true
      · by_cases hcb : c = '\\'
        · subst hcb
          have hns := escCat_headNotStar rest hr
          simp [chunkCat, chunkEsc, chunkR1, escapeChar_special _ hsp, replAux, isPrefixL,
            hns, ih hr]
        · simp [chunkCat, chunkEsc, chunkR1, escapeChar_special c hsp, replAux, isPrefixL,
            Ne.symm hs, Ne.symm hcb, ih hr]
      · simp only [Bool.not_eq_true] at hsp
        have hne := notSpecial_facts c hsp
        simp [chunkCat, chunkEsc, chunkR1, escapeChar_plain c hsp, replAux, isPrefixL,
          Ne.symm hne.1, ih hr]

/-- The first-substitution output of a well-formed chunk list never starts with `*`. -/
theorem r1Cat_headNotStar (cs : List GChunk) (hw : gWf cs = true) :
    isPrefixL ['*'] (chunkCat chunkR1 cs) = false := by
  match cs with
  | [] => rfl
  | GChunk.dstar :: rest => simp [chunkCat, chunkR1, isPrefixL]
  | GChunk.star :: rest => simp [chunkCat, chunkR1, isPrefixL]
  | GChunk.qmark :: rest => simp [chunkCat, chunkR1, isPrefixL]
  | GChunk.chr c :: rest =>
    obtain ⟨hs, hq, hr⟩ := gWf_chr c rest hw
    by_cases hsp : reSpecials.contains c = true
    · simp [chunkCat, chunkR1, escapeChar_special c hsp, isPrefixL]
    · simp only [Bool.not_eq_true] at hsp
      have hne := notSpecial_facts c hsp
      simp [chunkCat, chunkR1, escapeChar_plain c hsp, isPrefixL, Ne.symm hs]

/-- Second substitution: `\*` to `[^/]*`, chunk by chunk. -/
theorem replace2_chunks (cs : List GChunk) (hw : gWf cs = true) :
    replAux '\\' ['*'] ['[', '^', '/', ']', '*'] (chunkCat chunkR1 cs) = chunkCat chunkR2 cs := by
  induction cs with
  | nil => simp [chunkCat, replAux]
  | cons ch rest ih =>
    match ch with
    | GChunk.dstar =>
      rw [gWf] at hw
      simp [chunkCat, chunkR1, chunkR2, replAux, isPrefixL, ih hw]
    | GChunk.star =>
      rw [gWf] at hw
      simp only [Bool.and_eq_true] at hw
      simp [chunkCat, chunkR1, chunkR2, replAux, isPrefixL, ih hw.2]
    | GChunk.qmark =>
      rw [gWf] at hw
      simp [chunkCat, chunkR1, chunkR2, replAux, isPrefixL, ih hw]
    | GChunk.chr c =>
      obtain ⟨hs, hq, hr⟩ := gWf_chr c rest hw
      by_cases hsp : reSpecials.contains c = true
      · by_cases hcb : c = '\\'
        · subst hcb
          have hns := r1Cat_headNotStar rest hr
          simp [chunkCat, chunkR1, chunkR2, escapeChar_special _ hsp, replAux, isPrefixL,
            hns, ih hr]
        · simp [chunkCat, chunkR1, chunkR2, escapeChar_special c hsp, replAux, isPrefixL,
            Ne.symm hs, Ne.symm hcb, ih hr]
      · simp only [Bool.not_eq_true] at hsp
        have hne := notSpecial_facts c hsp
        simp [chunkCat, chunkR1, chunkR2, escapeChar_plain c hsp, replAux, isPrefixL,
          Ne.symm hne.1, ih hr]

/-- The second-substitution output of a well-formed chunk list never starts with `?`. -/
theorem r2Cat_headNotQ (cs : List GChunk) (hw : gWf cs = true) :
    isPrefixL ['?'] (chunkCat chunkR2 cs) = false := by
  match cs with
  | [] => rfl
  | GChunk.dstar :: rest => simp [chunkCat, chunkR2, isPrefixL]
  | GChunk.star :: rest => simp [chunkCat, chunkR2, isPrefixL]
  | GChunk.qmark :: rest => simp [chunkCat, chunkR2, isPrefixL]
  | GChunk.chr c :: rest =>
    obtain ⟨hs, hq, hr⟩ := gWf_chr c rest hw
    by_cases hsp : reSpecials.contains c = true
    · simp [chunkCat, chunkR2, escapeChar_special c hsp, isPrefixL]
    · simp only [Bool.not_eq_true] at hsp
      have hne := notSpecial_facts c hsp
      simp [chunkCat, chunkR2, escapeChar_plain c hsp, isPrefixL, Ne.symm hq]

/-- Third substitution: `\?` to `.`, chunk by chunk. -/
theorem replace3_chunks (cs : List GChunk) (hw : gWf cs = true) :
    replAux '\\' ['?'] ['.'] (chunkCat chunkR2 cs) = chunkCat chunkR3 cs := by
  induction cs with
  | nil => simp [chunkCat, replAux]
  | cons ch rest ih =>
    match ch with
    | GChunk.dstar =>
      rw [gWf] at hw
      simp [chunkCat, chunkR2, chunkR3, replAux, isPrefixL, ih hw]
    | GChunk.star =>
      rw [gWf] at hw
      simp only [Bool.and_eq_true] at hw
      simp [chunkCat, chunkR2, chunkR3, replAux, isPrefixL, ih hw.2]
    | GChunk.qmark =>
      rw [gWf] at hw
      simp [chunkCat, chunkR2, chunkR3, replAux, isPrefixL, ih hw]
    | GChunk.chr c =>
      obtain ⟨hs, hq, hr⟩ := gWf_chr c rest hw
      by_cases hsp : reSpecials.contains c = true
      · by_cases hcb : c = '\\'
        · subst hcb
          have hns := r2Cat_headNotQ rest hr
          simp [chunkCat, chunkR2, chunkR3, escapeChar_special _ hsp, replAux, isPrefixL,
            hns, ih hr]
        · simp [chunkCat, chunkR2, chunkR3, escapeChar_special c hsp, replAux, isPrefixL,
            Ne.symm hq, Ne.symm hcb, ih hr]
      · simp only [Bool.not_eq_true] at hsp
        have hne := notSpecial_facts c hsp
        simp [chunkCat, chunkR2, chunkR3, escapeChar_plain c hsp, replAux, isPrefixL,
          Ne.symm hne.1, ih hr]

/-- Every chunk's final regex text parses, with any accumulator. -/
theorem parse_chunks (cs : List GChunk) : gWf cs = true → ∀ acc : List RTok,
    (reParseAux (chunkCat chunkR3 cs) acc).isSome = true := by
  induction cs with
  | nil => intro hw acc; simp [chunkCat]
  | cons ch rest ih =>
    intro hw acc
    match ch with
    | GChunk.dstar =>
      rw [gWf] at hw
      simp [chunkCat, chunkR3, ih hw]
    | GChunk.star =>
      rw [gWf] at hw
      simp only [Bool.and_eq_true] at hw
      simp [chunkCat, chunkR3, ih hw.2]
    | GChunk.qmark =>
      rw [gWf] at hw
      simp [chunkCat, chunkR3, ih hw]
    | GChunk.chr c =>
      obtain ⟨hs, hq, hr⟩ := gWf_chr c rest hw
      by_cases hsp : reSpecials.contains c = true
      · simp [chunkCat, chunkR3, escapeChar_special c hsp, ih hr]
      · simp only [Bool.not_eq_true] at hsp
        have hne := notSpecial_facts c hsp
        rw [chunkCat, chunkR3, escapeChar_plain c hsp, List.singleton_append,
          reParseAux_other c _ _ hne.1 hne.2.2.2.2.2 hne.2.2.2.1 hne.2.2.2.2.1 hne.2.1]
        exact ih hr _

/-- The regex text `_glob_to_regex` emits is the anchor followed by the
per-chunk outputs. -/
theorem globToRegex_chunks (p : String) :
    globToRegex p = '^' :: chunkCat chunkR3 (chunks p.data) := by
  show '^' :: replaceAll ['\\', '?'] ['.']
      (replaceAll ['\\', '*'] ['[', '^', '/', ']', '*']
        (replaceAll ['\\', '*', '\\', '*'] ['.', '*'] (reEscape p.data))) =
    '^' :: chunkCat chunkR3 (chunks p.data)
  rw [reEscape_chunks]
  show '^' :: replAux '\\' ['?'] ['.']
      (replAux '\\' ['*'] ['[', '^', '/', ']', '*']
        (replAux '\\' ['*', '\\', '*'] ['.', '*'] (chunkCat chunkEsc (chunks p.data)))) = _
  rw [replace1_chunks _ (gWf_chunks _), replace2_chunks _ (gWf_chunks _),
    replace3_chunks _ (gWf_chunks _)]

/-! ## File Collector facts -/

theorem collect_files_mem_iff (entries : List FsEntry) (inc exc : List String) (m : Nat)
    (p : String) :
    p ∈ collect_files entries inc exc m ↔
      ∃ e ∈ entries, collectKeep inc exc m e = true ∧ e.path = p := by
  unfold collect_files
  rw [(List.perm_insertionSort pathLe _).mem_iff]
  simp [List.mem_map, List.mem_filter]
  constructor
  · rintro ⟨e, ⟨he, hk⟩, hpe⟩
    exact ⟨e, he, hk, hpe⟩
  · rintro ⟨e, he, hk, hpe⟩
    exact ⟨e, ⟨he, hk⟩, hpe⟩

/-- C4: a collected path matches no exclude pattern and at least one include
pattern; in particular a path matching any exclude pattern is never collected,
whatever include patterns say. -/
theorem collect_files_exclude_dominates (entries : List FsEntry) (inc exc : List String)
    (m : Nat) (p : String) (hp : p ∈ collect_files entries inc exc m) :
    (∀ pat ∈ exc, matchesPat pat (relPathStr p) = false) ∧
    (∃ pat ∈ inc, matchesPat pat (relPathStr p) = true) := by
  obtain ⟨e, he, hk, hpe⟩ := (collect_files_mem_iff entries inc exc m p).1 hp
  subst hpe
  unfold collectKeep at hk
  simp only [Bool.and_eq_true, Bool.not_eq_true'] at hk
  obtain ⟨⟨_, hexc⟩, hinc⟩ := hk
  constructor
  · intro pat hpat
    rcases hb : matchesPat pat (relPathStr e.path) with _ | _
    · rfl
    · exfalso
      have : exc.any (fun pat => matchesPat pat (relPathStr e.path)) = true :=
        List.any_eq_true.2 ⟨pat, hpat, hb⟩
      rw [this] at hexc
      cases hexc
  · exact List.any_eq_true.1 hinc

/-- C5 amended: the collected list is sorted in pathlib's path order —
lexicographic on the slash-separated component sequence of the relative path,
so `a/b.py` precedes `a.py`, unlike raw-string order — and collection is
invariant under reordering of the directory enumeration: two runs over an
identical unchanged tree return the identical list. -/
theorem collect_files_sorted_and_deterministic (entries entries' : List FsEntry)
    (inc exc : List String) (m : Nat) (hperm : entries.Perm entries') :
    List.Sorted pathLe (collect_files entries inc exc m) ∧
    collect_files entries inc exc m = collect_files entries' inc exc m := by
  refine ⟨List.sorted_insertionSort pathLe _, ?_⟩
  apply List.eq_of_perm_of_sorted _ (List.sorted_insertionSort pathLe _)
    (List.sorted_insertionSort pathLe _)
  exact ((List.perm_insertionSort pathLe _).trans
    (((hperm.filter _).map _))).trans (List.perm_insertionSort pathLe _).symm

/-- C8: glob-pattern compilation is total: every pattern string, malformed or
not, compiles to a matcher. -/
theorem glob_to_regex_total (p : String) : (reParse (globToRegex p)).isSome = true := by
  show (reParseAux (globToRegex p) []).isSome = true
  rw [globToRegex_chunks, reParseAux_caret]
  exact parse_chunks (chunks p.data) (gWf_chunks p.data) [RTok.anchor]

/-- C7: with both or neither of `repo_url`/`local_path` provided, `analyze`
fails with the contract-violation `ValueError` and performs no side effect. -/
theorem analyze_invalid_request (repo_url local_path : Option String)
    (inc exc : Option (List String)) (m : Nat) (w : AnalyzeWorld)
    (h : (truthyStr repo_url = true ∧ truthyStr local_path = true) ∨
         (truthyStr repo_url = false ∧ truthyStr local_path = false)) :
    (analyze repo_url local_path inc exc m w).2 = [] ∧
    ((analyze repo_url local_path inc exc m w).1 =
        Except.error "Cannot specify both repo_url and local_path" ∨
      (analyze repo_url local_path inc exc m w).1 =
        Except.error "Must specify either repo_url or local_path") := by
  rcases h with ⟨h1, h2⟩ | ⟨h1, h2⟩
  · constructor
    · simp [analyze, h1, h2]
    · left; simp [analyze, h1, h2]
  · constructor
    · simp [analyze, h1, h2]
    · right; simp [analyze, h1, h2]

/-- A closed instance of `analyze_invalid_request` at a concrete both-provided
call. -/
theorem analyze_invalid_request_witness :
    (analyze (some "https://github.com/a/b") (some "/tmp/x") none none 100000
        ⟨fun _ => [], "/tmp/clone", fun _ => []⟩).2 = [] ∧
    ((analyze (some "https://github.com/a/b") (some "/tmp/x") none none 100000
        ⟨fun _ => [], "/tmp/clone", fun _ => []⟩).1 =
        Except.error "Cannot specify both repo_url and local_path" ∨
      (analyze (some "https://github.com/a/b") (some "/tmp/x") none none 100000
        ⟨fun _ => [], "/tmp/clone", fun _ => []⟩).1 =
        Except.error "Must specify either repo_url or local_path") :=
  analyze_invalid_request (some "https://github.com/a/b") (some "/tmp/x") none none 100000
    ⟨fun _ => [], "/tmp/clone", fun _ => []⟩ (Or.inl ⟨by decide, by decide⟩)

/-- C1 counterexample: the relative import `from .utils import helper` does
contribute `"utils"` to the dependency set, so the set is not `{"os"}`. -/
theorem dependency_graph_relative_import_counterexample :
    "utils" ∈ c1Deps ∧ "utils" ≠ "os" := by
  constructor
  · decide
  · decide

/-- C1 amended: the dependency set of `a.py` is exactly `{"os", "utils"}`: the
`import os` contributes `"os"`, and the relative `from .utils import helper`
contributes `"utils"` because CPython stores the module name `'utils'` with
`level=1` and the analyzer tests only `node.module`. -/
theorem dependency_graph_a_py_deps :
    ∀ d : String, d ∈ c1Deps ↔ (d = "os" ∨ d = "utils") := by
  intro d
  rw [show c1Deps = ["os", "utils"] from by decide]
  simp

/-- C2: the nested `inner` is recorded as a top-level function (its enclosing
node is a `FunctionDef`, and the extractor's guard only rejects direct members
of a `ClassDef` body), while a genuine method is correctly rejected. -/
theorem nested_function_recorded :
    ((parse_python_file c2Ast "f.py").functions.map Prod.fst = ["outer", "inner"]) ∧
    ((parse_python_file [PyStmt.classDef "C" [] [PyStmt.funcDef "m" [] [] 2] 1] "g.py").functions
      = []) := by
  constructor
  · decide
  · decide

/-- C6: the cross-file base reference resolves only against `class:b.py::Base`,
which does not exist, so no `inherits` edge is emitted even though both class
nodes are present and `Child` records `Base` among its bases. -/
theorem cross_file_inheritance_edge_dropped :
    (c6Graph.edges.filter (fun e => e.relationship == "inherits")) = [] ∧
    "class:a.py::Base" ∈ c6Graph.nodes.map KGNode.id ∧
    "class:b.py::Child" ∈ c6Graph.nodes.map KGNode.id := by
  refine ⟨?_, ?_, ?_⟩
  · decide
  · decide
  · decide

/-- C10: a self-loop import edge is emitted: the dependency `"os"` is a
substring of the importing file's own path `os_utils.py`, which is the first
(and only) match of the modules scan, and the builder does not exclude the
importing file from the candidate targets. -/
theorem import_edge_self_loop :
    KGEdge.mk "file:os_utils.py" "file:os_utils.py" "imports" ∈ c10Graph.edges := by
  decide

/-- A closed instance of `collect_files_exclude_dominates` at a concrete tree. -/
theorem collect_files_exclude_dominates_witness :
    (∀ pat ∈ ["**/node_modules/**"], matchesPat pat (relPathStr "a.py") = false) ∧
    (∃ pat ∈ ["*.py"], matchesPat pat (relPathStr "a.py") = true) := by
  have hp : "a.py" ∈ collect_files [wEntryA] ["*.py"] ["**/node_modules/**"] 100000 := by
    simp [collect_files, collectKeep, wEntryA, relPathStr, replaceAll, replAux,
      matchesPat, globToRegex, reEscape, escapeChar, reSpecials, reParse, rmatch, atomMatch,
      isPrefixL, List.insertionSort, List.orderedInsert, emptyText]
  exact collect_files_exclude_dominates [wEntryA] ["*.py"] ["**/node_modules/**"] 100000
    "a.py" hp

/-- A closed instance of `collect_files_sorted_and_deterministic`: the two
enumeration orders of a two-file tree collect the identical sorted list. -/
theorem collect_files_sorted_and_deterministic_witness :
    List.Sorted pathLe (collect_files [wEntryB, wEntryA] ["*.py"] [] 100000) ∧
    collect_files [wEntryB, wEntryA] ["*.py"] [] 100000 =
      collect_files [wEntryA, wEntryB] ["*.py"] [] 100000 :=
  collect_files_sorted_and_deterministic [wEntryB, wEntryA] [wEntryA, wEntryB]
    ["*.py"] [] 100000 (List.Perm.swap wEntryA wEntryB [])

/-- C5 counterexample: on the tree with files `a.py` and `a/b.py` (include
pattern `**`), the collector returns `["a/b.py", "a.py"]` — `sorted()` on
`Path` objects compares component tuples, and `("a", "b.py") < ("a.py",)` —
so the output is not sorted by code-point order of the raw relative path,
where `"a.py" < "a/b.py"`. -/
theorem collect_files_not_string_sorted :
    ¬ List.Sorted strOrder
      (collect_files [c5EntryTop, c5EntryDir, c5EntryNested] ["**"] [] 100000) := by
  have hout : collect_files [c5EntryTop, c5EntryDir, c5EntryNested] ["**"] [] 100000 =
      ["a/b.py", "a.py"] := by
    simp [collect_files, collectKeep, c5EntryTop, c5EntryDir, c5EntryNested, relPathStr,
      replaceAll, replAux, isPrefixL, matchesPat, globToRegex, reEscape, escapeChar,
      reSpecials, reParse, rmatch, atomMatch, emptyText, List.insertionSort,
      List.orderedInsert, pathLe, partsLe, splitSlash, splitSlashAux, strLt]
  rw [hout]
  intro hs
  have hle := (List.sorted_cons.mp hs).1 "a.py" (by simp)
  simp only [strOrder] at hle
  exact absurd hle (by decide)

/-! ## Node-id uniqueness (C3) -/

theorem contains_iff_mem (l : List String) (i : String) : l.contains i = true ↔ i ∈ l := by
  simp [List.contains, List.elem_iff]

theorem kgInv_empty : kgInv { nodes := [], edges := [], node_ids := [] } := by
  constructor
  · exact List.nodup_nil
  · intro i
    simp [List.contains]

theorem addNodeIfNew_kgInv (st : KGBuild) (n : KGNode) (h : kgInv st) :
    kgInv (addNodeIfNew st n) := by
  unfold addNodeIfNew
  split
  · exact h
  · next hnot =>
    obtain ⟨hnd, hiff⟩ := h
    have hnotmem : n.id ∉ st.nodes.map KGNode.id := fun hmem =>
      hnot ((hiff n.id).2 hmem)
    constructor
    · simp only [List.map_append, List.map_cons, List.map_nil]
      rw [List.nodup_append]
      refine ⟨hnd, List.nodup_singleton _, ?_⟩
      intro x hx hx'
      simp only [List.mem_singleton] at hx'
      subst hx'
      exact hnotmem hx
    · intro i
      have hx := hiff i
      rw [contains_iff_mem] at hx
      rw [contains_iff_mem]
      simp only [List.map_append, List.map_cons, List.map_nil, List.mem_append,
        List.mem_singleton, hx]

theorem addEdge_kgInv (st : KGBuild) (e : KGEdge) (h : kgInv st) : kgInv (addEdge st e) := h

theorem foldl_kgInv {α : Type} (f : KGBuild → α → KGBuild)
    (hf : ∀ st x, kgInv st → kgInv (f st x)) :
    ∀ (l : List α) (st : KGBuild), kgInv st → kgInv (l.foldl f st) := by
  intro l
  induction l with
  | nil => intro st h; exact h
  | cons x xs ih => intro st h; exact ih _ (hf st x h)

theorem kgClassStep_kgInv (st : KGBuild) (kv : String × ClassInfo) (h : kgInv st) :
    kgInv (kgClassStep st kv) := by
  unfold kgClassStep
  dsimp only
  apply foldl_kgInv
  · intro st' b h'
    dsimp only
    split
    · exact addEdge_kgInv _ _ h'
    · exact h'
  · split
    · exact addEdge_kgInv _ _ (addNodeIfNew_kgInv _ _ h)
    · exact addNodeIfNew_kgInv _ _ h

theorem kgFuncStep_kgInv (st : KGBuild) (kv : String × FuncInfo) (h : kgInv st) :
    kgInv (kgFuncStep st kv) := by
  unfold kgFuncStep
  dsimp only
  split
  · exact addEdge_kgInv _ _ (addNodeIfNew_kgInv _ _ h)
  · exact addNodeIfNew_kgInv _ _ h

theorem kgDepStep_kgInv (modules : List (String × FileStructure)) (fid : String)
    (st : KGBuild) (dep : String) (h : kgInv st) : kgInv (kgDepStep modules fid st dep) := by
  unfold kgDepStep
  split
  · dsimp only
    split
    · exact addEdge_kgInv _ _ h
    · exact h
  · exact h

theorem kgFilePhase_kgInv (st : KGBuild) (modules : List (String × FileStructure))
    (h : kgInv st) : kgInv (kgFilePhase st modules) :=
  foldl_kgInv _ (fun st' m h' => addNodeIfNew_kgInv st' (fileNodeOf m.1) h') modules st h

theorem kgClassPhase_kgInv (st : KGBuild) (classes : List (String × ClassInfo))
    (h : kgInv st) : kgInv (kgClassPhase st classes) :=
  foldl_kgInv _ kgClassStep_kgInv classes st h

theorem kgFuncPhase_kgInv (st : KGBuild) (functions : List (String × FuncInfo))
    (h : kgInv st) : kgInv (kgFuncPhase st functions) :=
  foldl_kgInv _ kgFuncStep_kgInv functions st h

theorem kgDepPhase_kgInv (st : KGBuild) (modules : List (String × FileStructure))
    (dependencies : List (String × List String)) (h : kgInv st) :
    kgInv (kgDepPhase st modules dependencies) := by
  unfold kgDepPhase
  apply foldl_kgInv _ ?_ dependencies st h
  intro st' fd h'
  dsimp only
  split
  · exact h'
  · exact foldl_kgInv _ (kgDepStep_kgInv modules _) _ _ h'

theorem build_knowledge_graph_inv (s : StructureIndex) (d : List (String × List String)) :
    ∃ st : KGBuild, kgInv st ∧ (build_knowledge_graph s d).nodes = st.nodes := by
  refine ⟨_, ?_, rfl⟩
  exact kgDepPhase_kgInv _ _ _
    (kgFuncPhase_kgInv _ _ (kgClassPhase_kgInv _ _ (kgFilePhase_kgInv _ _ kgInv_empty)))

/-- C3: the Knowledge Graph Builder emits no duplicate node ids, for every
structure index and dependency graph: the node count equals the number of
distinct ids. -/
theorem knowledge_graph_node_ids_unique (s : StructureIndex)
    (d : List (String × List String)) :
    ((build_knowledge_graph s d).nodes.map KGNode.id).Nodup ∧
    (build_knowledge_graph s d).nodes.length =
      ((build_knowledge_graph s d).nodes.map KGNode.id).toFinset.card := by
  obtain ⟨st, hinv, hnodes⟩ := build_knowledge_graph_inv s d
  rw [hnodes]
  refine ⟨hinv.1, ?_⟩
  rw [List.toFinset_card_of_nodup hinv.1, List.length_map]

theorem dictInsert_keys {α : Type} (m : List (String × α)) (k : String) (v : α) :
    ∀ k', k' ∈ (dictInsert m k v).map Prod.fst → k' = k ∨ k' ∈ m.map Prod.fst := by
  induction m with
  | nil => intro k' h; simp [dictInsert] at h; exact Or.inl h
  | cons kv rest ih =>
    intro k' h
    rw [dictInsert] at h
    split at h
    · simp only [List.map_cons, List.mem_cons] at h
      rcases h with h | h
      · exact Or.inl h
      · exact Or.inr (by simp [h])
    · simp only [List.map_cons, List.mem_cons] at h
      rcases h with h | h
      · exact Or.inr (by simp [h])
      · rcases ih k' h with h' | h'
        · exact Or.inl h'
        · exact Or.inr (by simp [h'])

theorem classFold_functions (file_path : String) (items : List (String × ClassInfo)) :
    ∀ acc : StructureIndex,
      (items.foldl (fun a kv =>
        { a with classes := dictInsert a.classes (file_path ++ "::" ++ kv.1) kv.2 }) acc).functions
      = acc.functions := by
  induction items with
  | nil => intro acc; rfl
  | cons kv rest ih => intro acc; rw [List.foldl_cons, ih]

theorem classFold_classes_keys (file_path : String) (items : List (String × ClassInfo)) :
    ∀ acc : StructureIndex, ∀ k ∈ ((items.foldl (fun a kv =>
        { a with classes := dictInsert a.classes (file_path ++ "::" ++ kv.1) kv.2 }) acc).classes.map
          Prod.fst),
      k ∈ acc.classes.map Prod.fst ∨ ∃ n, k = file_path ++ "::" ++ n := by
  induction items with
  | nil => intro acc k hk; exact Or.inl hk
  | cons kv rest ih =>
    intro acc k hk
    rw [List.foldl_cons] at hk
    rcases ih _ k hk with h | h
    · rcases dictInsert_keys _ _ _ _ h with h' | h'
      · exact Or.inr ⟨kv.1, h'⟩
      · exact Or.inl h'
    · exact Or.inr h

theorem funcFold_classes (file_path : String) (items : List (String × FuncInfo)) :
    ∀ acc : StructureIndex,
      (items.foldl (fun a kv =>
        { a with functions := dictInsert a.functions (file_path ++ "::" ++ kv.1) kv.2 }) acc).classes
      = acc.classes := by
  induction items with
  | nil => intro acc; rfl
  | cons kv rest ih => intro acc; rw [List.foldl_cons, ih]

theorem funcFold_functions_keys (file_path : String) (items : List (String × FuncInfo)) :
    ∀ acc : StructureIndex, ∀ k ∈ ((items.foldl (fun a kv =>
        { a with functions := dictInsert a.functions (file_path ++ "::" ++ kv.1) kv.2 }) acc).functions.map
          Prod.fst),
      k ∈ acc.functions.map Prod.fst ∨ ∃ n, k = file_path ++ "::" ++ n := by
  induction items with
  | nil => intro acc k hk; exact Or.inl hk
  | cons kv rest ih =>
    intro acc k hk
    rw [List.foldl_cons] at hk
    rcases ih _ k hk with h | h
    · rcases dictInsert_keys _ _ _ _ h with h' | h'
      · exact Or.inr ⟨kv.1, h'⟩
      · exact Or.inl h'
    · exact Or.inr h

theorem parseStructStep_keysInv (paths : List String) (acc : StructureIndex)
    (entry : String × SrcText) (hmem : entry.1 ∈ paths) (h : keysInv paths acc) :
    keysInv paths (parseStructStep acc entry) := by
  unfold parseStructStep
  split
  · dsimp only
    split
    · next hpy =>
      constructor
      · intro k hk
        simp only at hk
        rw [funcFold_classes] at hk
        rcases classFold_classes_keys _ _ _ k hk with h' | h'
        · exact h.1 k h'
        · obtain ⟨n, hn⟩ := h'
          exact ⟨entry.1, n, hn, hpy, hmem⟩
      · intro k hk
        simp only at hk
        rcases funcFold_functions_keys _ _ _ k hk with h' | h'
        · rw [classFold_functions] at h'
          exact h.2 k h'
        · obtain ⟨n, hn⟩ := h'
          exact ⟨entry.1, n, hn, hpy, hmem⟩
    · split
      · exact h
      · exact h
  · dsimp only
    split
    · exact h
    · split
      · exact h
      · exact h

theorem parse_fold_keysInv (paths : List String) :
    ∀ (l : List (String × SrcText)), (∀ e ∈ l, e.1 ∈ paths) →
      ∀ acc, keysInv paths acc → keysInv paths (l.foldl parseStructStep acc) := by
  intro l
  induction l with
  | nil => intro _ acc h; exact h
  | cons e rest ih =>
    intro hl acc h
    rw [List.foldl_cons]
    exact ih (fun e' he' => hl e' (List.mem_cons_of_mem _ he'))
      _ (parseStructStep_keysInv paths acc e (hl e (List.mem_cons_self _ _)) h)

/-- Every class or function key of the structure index comes from a `.py` file
of the input. -/
theorem parse_code_structure_keys (fc : List (String × SrcText)) :
    keysInv (fc.map Prod.fst) (parse_code_structure fc) := by
  unfold parse_code_structure
  apply parse_fold_keysInv _ fc (fun e he => List.mem_map_of_mem Prod.fst he)
  constructor
  · intro k hk; simp at hk
  · intro k hk; simp at hk

theorem addNodeIfNew_nodes (st : KGBuild) (n m : KGNode)
    (h : m ∈ (addNodeIfNew st n).nodes) : m ∈ st.nodes ∨ m = n := by
  unfold addNodeIfNew at h
  split at h
  · exact Or.inl h
  · simp only [List.mem_append, List.mem_singleton] at h
    exact h

theorem foldl_nodes_eq {α : Type} (f : KGBuild → α → KGBuild)
    (hf : ∀ st x, (f st x).nodes = st.nodes) :
    ∀ (l : List α) (st : KGBuild), (l.foldl f st).nodes = st.nodes := by
  intro l
  induction l with
  | nil => intro st; rfl
  | cons x xs ih => intro st; rw [List.foldl_cons, ih, hf]

theorem basesFold_nodes (node_id file_path : String) (bases : List String) (st : KGBuild) :
    ((bases.foldl (fun s b =>
      let base_node_id := "class:" ++ file_path ++ "::" ++ b
      if s.node_ids.contains base_node_id then
        addEdge s { source := node_id, target := base_node_id, relationship := "inherits" }
      else s) st)).nodes = st.nodes := by
  apply foldl_nodes_eq
  intro st' b
  dsimp only
  split
  · rfl
  · rfl

theorem kgClassStep_nodes (st : KGBuild) (kv : String × ClassInfo) (m : KGNode)
    (h : m ∈ (kgClassStep st kv).nodes) : m ∈ st.nodes ∨ m = classNodeOf kv.1 kv.2 := by
  unfold kgClassStep at h
  dsimp only at h
  rw [basesFold_nodes] at h
  split at h
  · exact addNodeIfNew_nodes _ _ _ h
  · exact addNodeIfNew_nodes _ _ _ h

theorem kgFuncStep_nodes (st : KGBuild) (kv : String × FuncInfo) (m : KGNode)
    (h : m ∈ (kgFuncStep st kv).nodes) : m ∈ st.nodes ∨ m = funcNodeOf kv.1 kv.2 := by
  unfold kgFuncStep at h
  dsimp only at h
  split at h
  · exact addNodeIfNew_nodes _ _ _ h
  · exact addNodeIfNew_nodes _ _ _ h

theorem kgDepPhase_nodes (st : KGBuild) (modules : List (String × FileStructure))
    (dependencies : List (String × List String)) :
    (kgDepPhase st modules dependencies).nodes = st.nodes := by
  unfold kgDepPhase
  apply foldl_nodes_eq
  intro st' fd
  dsimp only
  split
  · rfl
  · apply foldl_nodes_eq
    intro st'' dep
    unfold kgDepStep
    split
    · dsimp only
      split
      · rfl
      · rfl
    · rfl

theorem kgClassPhase_nodesFrom (s : StructureIndex) :
    ∀ (l : List (String × ClassInfo)), (∀ kv ∈ l, kv ∈ s.classes) →
      ∀ st, (∀ m ∈ st.nodes, nodeFrom s m) →
        ∀ m ∈ (kgClassPhase st l).nodes, nodeFrom s m := by
  intro l
  induction l with
  | nil => intro _ st h; exact h
  | cons kv rest ih =>
    intro hl st h
    unfold kgClassPhase
    rw [List.foldl_cons]
    apply ih (fun kv' hv => hl kv' (List.mem_cons_of_mem _ hv))
    intro m hm
    rcases kgClassStep_nodes st kv m hm with h' | h'
    · exact h m h'
    · exact Or.inr (Or.inl ⟨kv, hl kv (List.mem_cons_self _ _), h'⟩)

theorem kgFuncPhase_nodesFrom (s : StructureIndex) :
    ∀ (l : List (String × FuncInfo)), (∀ kv ∈ l, kv ∈ s.functions) →
      ∀ st, (∀ m ∈ st.nodes, nodeFrom s m) →
        ∀ m ∈ (kgFuncPhase st l).nodes, nodeFrom s m := by
  intro l
  induction l with
  | nil => intro _ st h; exact h
  | cons kv rest ih =>
    intro hl st h
    unfold kgFuncPhase
    rw [List.foldl_cons]
    apply ih (fun kv' hv => hl kv' (List.mem_cons_of_mem _ hv))
    intro m hm
    rcases kgFuncStep_nodes st kv m hm with h' | h'
    · exact h m h'
    · exact Or.inr (Or.inr ⟨kv, hl kv (List.mem_cons_self _ _), h'⟩)

theorem kgFilePhase_nodesFrom (s : StructureIndex) (l : List (String × FileStructure)) :
    ∀ st, (∀ m ∈ st.nodes, nodeFrom s m) → ∀ m ∈ (kgFilePhase st l).nodes, nodeFrom s m := by
  induction l with
  | nil => intro st h; exact h
  | cons kv rest ih =>
    intro st h
    unfold kgFilePhase
    rw [List.foldl_cons]
    apply ih
    intro m hm
    rcases addNodeIfNew_nodes st (fileNodeOf kv.1) m hm with h' | h'
    · exact h m h'
    · exact Or.inl (by rw [h']; rfl)

/-- Every node of the built graph is a file node or comes from a class/function
entry of the structure index. -/
theorem build_knowledge_graph_nodesFrom (s : StructureIndex)
    (d : List (String × List String)) :
    ∀ m ∈ (build_knowledge_graph s d).nodes, nodeFrom s m := by
  intro m hm
  unfold build_knowledge_graph at hm
  dsimp only at hm
  rw [kgDepPhase_nodes] at hm
  exact kgFuncPhase_nodesFrom s s.functions (fun kv hv => hv) _
    (kgClassPhase_nodesFrom s s.classes (fun kv hv => hv) _
      (kgFilePhase_nodesFrom s s.modules _ (fun m' hm' => by simp at hm')))
    m hm

/-- A path ending in `.py` matches none of the ECMAScriptLike extensions. -/
theorem endsPy_not_ecma (p : String) (h : endsWithS p ".py" = true) :
    isEcmaPath p = false := by
  unfold endsWithS at h
  unfold isEcmaPath endsWithS
  have e0 : (".py" : String).data.reverse = ['y', 'p', '.'] := by decide
  have e1 : (".js" : String).data.reverse = ['s', 'j', '.'] := by decide
  have e2 : (".ts" : String).data.reverse = ['s', 't', '.'] := by decide
  have e3 : (".jsx" : String).data.reverse = ['x', 's', 'j', '.'] := by decide
  have e4 : (".tsx" : String).data.reverse = ['x', 's', 't', '.'] := by decide
  rw [e0] at h
  rw [e1, e2, e3, e4]
  rcases hR : p.data.reverse with _ | ⟨r, R'⟩
  · rw [hR] at h
    simp [isPrefixL] at h
  · rw [hR] at h
    simp only [isPrefixL, Bool.and_eq_true, decide_eq_true_eq] at h
    have hr : r = 'y' := h.1.symm
    subst hr
    simp [isPrefixL]

/-- Splitting a colon-free prefix joined by `"::"` recovers the parts. -/
theorem splitCCL_append (pl : List Char) (h : ∀ c ∈ pl, ¬ c = ':') :
    ∀ nl, splitCCL (pl ++ ':' :: ':' :: nl) = (pl, nl) := by
  induction pl with
  | nil =>
    intro nl
    rw [splitCCL.eq_def]
    simp
  | cons c cs ih =>
    intro nl
    have hc : ¬ c = ':' := h c (List.mem_cons_self _ _)
    have hcs : ∀ c' ∈ cs, ¬ c' = ':' := fun c' hc' => h c' (List.mem_cons_of_mem _ hc')
    cases cs with
    | nil =>
      rw [splitCCL.eq_def]
      simp only [List.nil_append, List.cons_append]
      rw [if_neg (by simp [hc])]
      rw [show splitCCL (':' :: ':' :: nl) = ([], nl) from ih (by intro x hx; cases hx) nl]
    | cons c2 cs' =>
      rw [splitCCL.eq_def]
      simp only [List.cons_append]
      rw [if_neg (by simp [hc])]
      have hrec : splitCCL (c2 :: (cs' ++ ':' :: ':' :: nl)) = (c2 :: cs', nl) := by
        have := ih hcs nl
        simpa using this
      rw [hrec]

/-- String version of `splitCCL_append`. -/
theorem splitCC_append (p n : String) (h : ∀ c ∈ p.data, ¬ c = ':') :
    splitCC (p ++ "::" ++ n) = (p, n) := by
  unfold splitCC
  have hdata : (p ++ "::" ++ n).data = p.data ++ ':' :: ':' :: n.data := by
    rw [String.data_append, String.data_append]
    simp [show ("::" : String).data = [':', ':'] from rfl]
  rw [hdata, splitCCL_append p.data h n.data]

/-- C9: class and function entries of the global maps come only from PythonLike
files, and consequently (for inputs whose paths are colon-free, so that the
builder's `split("::")` unpacking is faithful) every class or function node of
the knowledge graph carries a `.py` file path — never an ECMAScriptLike one. -/
theorem ecma_files_no_class_or_function_nodes (fc : List (String × SrcText))
    (d : List (String × List String)) :
    (∀ k ∈ (parse_code_structure fc).classes.map Prod.fst ++
        (parse_code_structure fc).functions.map Prod.fst,
      ∃ p n, k = p ++ "::" ++ n ∧ endsWithS p ".py" = true ∧ p ∈ fc.map Prod.fst) ∧
    ((∀ p ∈ fc.map Prod.fst, ∀ c ∈ p.data, ¬ c = ':') →
      ∀ node ∈ (build_knowledge_graph (parse_code_structure fc) d).nodes,
        node.type = "class" ∨ node.type = "function" →
          endsWithS node.file_path ".py" = true ∧ isEcmaPath node.file_path = false) := by
  have hkeys := parse_code_structure_keys fc
  constructor
  · intro k hk
    rcases List.mem_append.1 hk with h | h
    · exact hkeys.1 k h
    · exact hkeys.2 k h
  · intro hnc node hnode htype
    rcases build_knowledge_graph_nodesFrom _ d node hnode with hfile | hclass | hfunc
    · exfalso
      rcases htype with ht | ht <;> rw [ht] at hfile <;> simp at hfile
    · obtain ⟨kv, hkv, hshape⟩ := hclass
      obtain ⟨p, n, hkey, hpy, hp⟩ := hkeys.1 kv.1 (List.mem_map_of_mem Prod.fst hkv)
      have hsplit : splitCC kv.1 = (p, n) := by
        rw [hkey]
        exact splitCC_append p n (hnc p hp)
      have hfp : node.file_path = p := by
        rw [hshape]
        show (splitCC kv.1).1 = p
        rw [hsplit]
      rw [hfp]
      exact ⟨hpy, endsPy_not_ecma p hpy⟩
    · obtain ⟨kv, hkv, hshape⟩ := hfunc
      obtain ⟨p, n, hkey, hpy, hp⟩ := hkeys.2 kv.1 (List.mem_map_of_mem Prod.fst hkv)
      have hsplit : splitCC kv.1 = (p, n) := by
        rw [hkey]
        exact splitCC_append p n (hnc p hp)
      have hfp : node.file_path = p := by
        rw [hshape]
        show (splitCC kv.1).1 = p
        rw [hsplit]
      rw [hfp]
      exact ⟨hpy, endsPy_not_ecma p hpy⟩

/-- A closed instance of `ecma_files_no_class_or_function_nodes`: the class
node the C9 witness graph contains carries the PythonLike path. -/
theorem ecma_files_no_class_or_function_nodes_witness :
    endsWithS (classNodeOf "m.py::A" ⟨"A", [], 1, []⟩).file_path ".py" = true ∧
    isEcmaPath (classNodeOf "m.py::A" ⟨"A", [], 1, []⟩).file_path = false :=
  (ecma_files_no_class_or_function_nodes c9Fc (build_dependency_graph c9Fc)).2
    (by decide) (classNodeOf "m.py::A" ⟨"A", [], 1, []⟩) (by decide) (Or.inl rfl)

end OXG
